import Mathlib

/-!
# Memory matching game: daily puzzle generator and session state machine

A shallow embedding of `src/components/games/MemoryMatchingGame.jsx`.

Conventions of the embedding.

* A JavaScript string is the list of its UTF-16 code units (`charCodeAt` values).
* JavaScript numbers that hold integers are `Int`/`Nat`; the double arithmetic of the
  source is exact on them below `2 ^ 53`, which the hash of a seed of fewer than
  `2 ^ 21` code units never reaches.  `NaN` is kept as a separate value (`JSNum.nan`).
* `Math.sin` is not modelled.  The generator functions take the random source as a
  parameter `rng : Int → ℚ`, and the properties that need its range take `0 ≤ rng n < 1`
  as a hypothesis; `seededRandom sin` is the source's generator over any function `sin` on
  the integers and meets that hypothesis.  Arithmetic on these values is exact (no
  rounding to double); the theorems use only the range of the floors.
* The wall clock is an input: `getDailySeed()` enters as the seed string, the two
  `toDateString()` values of the completion effect as `today` and `yesterday`.
  `generateMemoryGame` takes one seed for both of its readings of the clock;
  `generateMemoryGameReads` keeps the two readings apart.
* Component state (`useState`) is the record `Session`; every event handler, timeout
  callback and effect body is a function on `Session`.  A `TypeError` raised by the
  source is the result `none`.
-/

namespace MemoryMatchingGame

/-! ## Seed and hash -/

/-- A string, as the list of its UTF-16 code units. -/
abbrev JSString := List Nat

/-- Code units of a Lean string whose characters are all in the basic plane. -/
def codeUnits (s : String) : JSString := s.toList.map Char.toNat

/-- Decimal rendering of an integer inside a template literal. -/
def intToJSString (n : Int) : JSString := codeUnits (toString n)

/-- Source `getDailySeed`, lines 38-41: the clock supplies `getFullYear()`, `getMonth()`
and `getDate()`; the component supplies `pillarName`. -/
def getDailySeed (fullYear : Int) (month : Nat) (date : Nat) (pillarName : JSString) : JSString :=
  intToJSString fullYear ++ codeUnits "-" ++ intToJSString ((month : Int) + 1) ++ codeUnits "-"
    ++ intToJSString date ++ codeUnits "-memory-" ++ pillarName

/-- ECMAScript `ToInt32` on an integer-valued number. -/
def toInt32 (x : Int) : Int :=
  let m := x % 4294967296
  if m ≥ 2147483648 then m - 4294967296 else m

/-- The operator `x << 5`: the left operand goes through `ToInt32`, the product by `2 ^ 5`
is brought back to 32 bits. -/
def shiftLeft5 (x : Int) : Int := toInt32 (toInt32 x * 32)

/-- One round of the loop body `hashCode = seed.charCodeAt(i) + ((hashCode << 5) - hashCode)`:
only the shift is a 32-bit operation, the subtraction and the addition are number
arithmetic. -/
def hashStep (hashCode : Int) (charCode : Nat) : Int :=
  (charCode : Int) + (shiftLeft5 hashCode - hashCode)

/-- The hash loop of lines 52-55 (repeated verbatim at 83-86 and 100-103). -/
def hashOf (seed : JSString) : Int := seed.foldl hashStep 0

/-- One round of the rolling hash as the specification words it:
`h := wrap32 (h * 31 + charCode)`. -/
def specHashStep (h : Int) (charCode : Nat) : Int := toInt32 (h * 31 + (charCode : Int))

/-- The rolling polynomial hash of the specification, iterated from `0`. -/
def specHash (seed : JSString) : Int := seed.foldl specHashStep 0

/-- Membership in the signed 32-bit range. -/
def isInt32 (x : Int) : Prop := -2147483648 ≤ x ∧ x ≤ 2147483647

instance (x : Int) : Decidable (isInt32 x) := by unfold isInt32; infer_instance

/-! ## Deterministic generator -/

/-- The three difficulty strings. -/
inductive Difficulty where
  | easy
  | medium
  | hard
  deriving DecidableEq, Repr

/-- Array indexing `xs[index]` on a number holding an integer: `none` is `undefined`. -/
def arrayGet {α : Type} (xs : List α) (index : Int) : Option α :=
  if 0 ≤ index then xs[index.toNat]? else none

/-- The array literal of line 57. -/
def difficulties : List Difficulty := [Difficulty.easy, Difficulty.medium, Difficulty.hard]

/-- Lines 57-59: `difficulties[Math.abs(hashCode) % difficulties.length]`. -/
def difficultyAt (hashCode : Int) : Option Difficulty :=
  arrayGet difficulties ((hashCode.natAbs : Int) % (difficulties.length : Int))

/-- Source `getDailyDifficulty`, lines 50-60; `seed` is the value of `getDailySeed()`.
The result `none` stands for `undefined`. -/
def getDailyDifficulty (seed : JSString) : Option Difficulty :=
  let hashCode := hashOf seed
  difficultyAt hashCode

/-- The `switch` of lines 68-78; any value other than `'easy'` and `'hard'` takes the
default branch. -/
def pairCountOf (difficulty : Option Difficulty) : Nat :=
  match difficulty with
  | some Difficulty.easy => 6
  | some Difficulty.hard => 12
  | _ => 8

/-- Line 64. -/
def symbols : List String :=
  ["★", "♦", "♥", "♠", "♣", "●", "■", "▲", "◆", "◉", "✦", "✧", "⬟", "⬢", "⬣", "⭐"]

/-- Line 65. -/
def numbers : List String := ["1", "2", "3", "4", "5", "6", "7", "8", "9", "0"]

/-- Line 80. -/
def availableContent : List String := symbols ++ numbers

/-- The index of line 90, `Math.floor(seededRandom(hashCode + i * 100) * availableContent.length)`. -/
def contentIndex (rng : Int → ℚ) (hashCode : Int) (i : Nat) : Int :=
  Int.floor (rng (hashCode + (i : Int) * 100) * (availableContent.length : ℚ))

/-- Source `generateCardContent`, lines 63-95.  An entry `none` is `undefined`. -/
def generateCardContent (rng : Int → ℚ) (seed : JSString) (difficulty : Option Difficulty) :
    List (Option String) :=
  let pairCount := pairCountOf difficulty
  let hashCode := hashOf seed
  (List.range pairCount).map fun i => arrayGet availableContent (contentIndex rng hashCode i)

/-- The swap index of line 106, `Math.floor(seededRandom(hashCode + i) * (i + 1))`. -/
def swapIndex (rng : Int → ℚ) (hashCode : Int) (i : Nat) : Int :=
  Int.floor (rng (hashCode + (i : Int)) * ((i : ℚ) + 1))

/-- The destructuring swap of line 107 on positions that both hold an element. -/
def swapAt {α : Type} (xs : List α) (i j : Nat) : Option (List α) :=
  match xs[i]?, xs[j]? with
  | some a, some b => some ((xs.set i b).set j a)
  | _, _ => none

/-- The loop of lines 105-108, from index `i` down to `1`.  A swap index outside the array
would make the source write `undefined` into it or grow it; the embedding stops with
`none` there. -/
def shuffleLoop {α : Type} (rng : Int → ℚ) (hashCode : Int) : Nat → List α → Option (List α)
  | 0, shuffled => some shuffled
  | i + 1, shuffled =>
    let j := swapIndex rng hashCode (i + 1)
    if 0 ≤ j then
      match swapAt shuffled (i + 1) j.toNat with
      | some swapped => shuffleLoop rng hashCode i swapped
      | none => none
    else none

/-- Source `shuffleArray`, lines 98-110.  The input list is a value, so the copy
`[...array]` is the list itself and the caller's array is never written. -/
def shuffleArray {α : Type} (rng : Int → ℚ) (array : List α) (seed : JSString) :
    Option (List α) :=
  let shuffled := array
  let hashCode := hashOf seed
  shuffleLoop rng hashCode (shuffled.length - 1) shuffled

/-- A tile, `{ id, content, pairId }`. -/
structure Card where
  id : Nat
  content : Option String
  pairId : Nat
  deriving DecidableEq, Repr

/-- Grid dimensions, `{ rows, cols }`. -/
structure GridSize where
  rows : Nat
  cols : Nat
  deriving DecidableEq, Repr

/-- Source `getGridSize`, lines 137-146. -/
def getGridSize (difficulty : Option Difficulty) : GridSize :=
  match difficulty with
  | some Difficulty.easy => { rows := 3, cols := 4 }
  | some Difficulty.hard => { rows := 4, cols := 6 }
  | _ => { rows := 4, cols := 4 }

/-- The `forEach` of lines 120-123, started at position `index`. -/
def makePairs : Nat → List (Option String) → List Card
  | _, [] => []
  | index, item :: rest =>
    { id := index * 2, content := item, pairId := index } ::
      { id := index * 2 + 1, content := item, pairId := index } :: makePairs (index + 1) rest

/-- The object returned by `generateMemoryGame`. -/
structure GameState where
  cards : List Card
  difficulty : Option Difficulty
  seed : JSString
  gridSize : GridSize
  deriving DecidableEq, Repr

/-- Source `generateMemoryGame`, lines 113-134; `seed` is the value of `getDailySeed()`,
read by this function and by `getDailyDifficulty` on the same day. -/
def generateMemoryGame (rng : Int → ℚ) (seed : JSString) : Option GameState :=
  let dailyDifficulty := getDailyDifficulty seed
  let content := generateCardContent rng seed dailyDifficulty
  let pairs := makePairs 0 content
  match shuffleArray rng pairs seed with
  | some shuffledCards =>
    some { cards := shuffledCards, difficulty := dailyDifficulty, seed := seed,
           gridSize := getGridSize dailyDifficulty }
  | none => none

/-- Source `generateMemoryGame`, lines 113-134, with its two readings of the clock kept
apart: `seed` is the value of `getDailySeed()` at line 114, which content selection and
shuffling receive and which is returned; `seedAgain` is the value of the `getDailySeed()`
that `getDailyDifficulty` calls at line 51. -/
def generateMemoryGameReads (rng : Int → ℚ) (seed seedAgain : JSString) : Option GameState :=
  let dailyDifficulty := getDailyDifficulty seedAgain
  let content := generateCardContent rng seed dailyDifficulty
  let pairs := makePairs 0 content
  match shuffleArray rng pairs seed with
  | some shuffledCards =>
    some { cards := shuffledCards, difficulty := dailyDifficulty, seed := seed,
           gridSize := getGridSize dailyDifficulty }
  | none => none

/-! ## Session state -/

/-- A JavaScript number that is either `NaN` or holds an integer. -/
inductive JSNum where
  | nan
  | int (v : Int)
  deriving DecidableEq, Repr

/-- The sum `x + 1`. -/
def JSNum.succ : JSNum → JSNum
  | JSNum.nan => JSNum.nan
  | JSNum.int v => JSNum.int (v + 1)

/-- The string a number is stored as by `localStorage.setItem`. -/
def JSNum.toStored : JSNum → String
  | JSNum.nan => "NaN"
  | JSNum.int v => toString v

/-- The test `!bestTime` on a value that is `null` (`none`) or a number: `null`, `NaN`
and `0` are falsy. -/
def isFalsy : Option JSNum → Bool
  | none => true
  | some JSNum.nan => true
  | some (JSNum.int v) => decide (v = 0)

/-- The comparison `timer < bestTime`; `null` converts to `0`, a comparison with `NaN`
is false. -/
def timerLess (timer : Nat) : Option JSNum → Bool
  | none => decide ((timer : Int) < 0)
  | some JSNum.nan => false
  | some (JSNum.int v) => decide ((timer : Int) < v)

/-- The four `localStorage` entries of one pillar; `none` is a missing key. -/
structure Storage where
  streak : Option String
  lastPlayed : Option String
  complete : Option String
  bestTime : Option String
  deriving DecidableEq, Repr

/-- A scheduled `setTimeout` callback of `handleCardFlip`. -/
inductive Timeout where
  | matchFound (pairId : Nat)
  | noMatch
  deriving DecidableEq, Repr

/-- The component state (lines 7-17), the timeouts scheduled and not yet fired, and the
pillar's `localStorage` entries. -/
structure Session where
  gameState : Option GameState
  flippedCards : List Nat
  matchedPairs : List Nat
  moves : Nat
  isComplete : Bool
  streak : JSNum
  lastPlayed : Option String
  timer : Nat
  isTimerRunning : Bool
  bestTime : Option JSNum
  difficulty : Option Difficulty
  pending : List Timeout
  localStorage : Storage
  deriving DecidableEq, Repr

/-- The `useState` initial values of lines 7-17, over the given storage. -/
def initialSession (storage : Storage) : Session :=
  { gameState := none, flippedCards := [], matchedPairs := [], moves := 0, isComplete := false,
    streak := JSNum.int 0, lastPlayed := none, timer := 0, isTimerRunning := false,
    bestTime := none, difficulty := some Difficulty.medium, pending := [],
    localStorage := storage }

/-- One firing of the interval of lines 20-28.  The interval exists only while
`isTimerRunning && !isComplete` held at the last render. -/
def tick (s : Session) : Session :=
  if s.isTimerRunning && !s.isComplete then { s with timer := s.timer + 1 } else s

/-- Source `handleCardFlip`, lines 178-214.  `none` is the `TypeError` of reading `pairId`
from a missing card or `cards` from a `null` game state. -/
def handleCardFlip (s : Session) (cardIndex : Nat) : Option Session :=
  if s.flippedCards.length ≥ 2 ∨ cardIndex ∈ s.flippedCards then some s
  else
    match s.gameState with
    | none => none
    | some g =>
      match g.cards[cardIndex]? with
      | none => none
      | some card =>
        if card.pairId ∈ s.matchedPairs ∨ s.isComplete = true then some s
        else
          let s1 := if !s.isTimerRunning then { s with isTimerRunning := true } else s
          let newFlipped := s.flippedCards ++ [cardIndex]
          let s2 := { s1 with flippedCards := newFlipped }
          match newFlipped with
          | [first, second] =>
            let s3 := { s2 with moves := s2.moves + 1 }
            match g.cards[first]?, g.cards[second]? with
            | some firstCard, some secondCard =>
              if firstCard.pairId = secondCard.pairId then
                some { s3 with pending := s3.pending ++ [Timeout.matchFound firstCard.pairId] }
              else
                some { s3 with pending := s3.pending ++ [Timeout.noMatch] }
            | _, _ => none
          | _ => some s2

/-- The body of a scheduled callback, lines 204-205 and 210. -/
def Timeout.run (t : Timeout) (s : Session) : Session :=
  match t with
  | Timeout.matchFound pairId =>
    { s with matchedPairs := s.matchedPairs ++ [pairId], flippedCards := [] }
  | Timeout.noMatch => { s with flippedCards := [] }

/-- The `k`-th scheduled timeout fires. -/
def fireTimeout (s : Session) (k : Nat) : Session :=
  match s.pending[k]? with
  | none => s
  | some t => t.run { s with pending := s.pending.eraseIdx k }

/-- The condition of line 218 on a non-null game state. -/
def completionDue (s : Session) : Bool :=
  match s.gameState with
  | none => false
  | some g =>
    decide ((s.matchedPairs.length : ℚ) = (g.cards.length : ℚ) / 2) &&
      decide (s.matchedPairs.length > 0)

/-- Lines 225-232. -/
def newStreak (today yesterday : String) (streak : JSNum) (lastPlayed : Option String) : JSNum :=
  if lastPlayed = some yesterday then streak.succ
  else if lastPlayed ≠ some today then JSNum.int 1
  else streak

/-- The completion effect, lines 217-245; `today` and `yesterday` are the two
`toDateString()` values of lines 222-223. -/
def completionEffect (today yesterday : String) (s : Session) : Session :=
  if completionDue s then
    let streak1 := newStreak today yesterday s.streak s.lastPlayed
    let storage1 : Storage :=
      { s.localStorage with
        streak := some streak1.toStored, lastPlayed := some today, complete := some "true" }
    let s1 := { s with isComplete := true, isTimerRunning := false, streak := streak1,
                       localStorage := storage1 }
    if isFalsy s.bestTime || timerLess s.timer s.bestTime then
      { s1 with bestTime := some (JSNum.int s.timer),
                localStorage := { storage1 with bestTime := some (toString s.timer) } }
    else s1
  else s

/-- Source `handleReset`, lines 248-258; `seed` is the value of `getDailySeed()` at the
click.  Scheduled timeouts are left as they are. -/
def handleReset (rng : Int → ℚ) (seed : JSString) (s : Session) : Option Session :=
  match generateMemoryGame rng seed with
  | some game =>
    some { s with flippedCards := [], matchedPairs := [], moves := 0, timer := 0,
                  isTimerRunning := false, isComplete := false, gameState := some game,
                  difficulty := game.difficulty }
  | none => none

/-! ## Random generator, stored progress and loading -/

/-- Source `seededRandom`, lines 44-47, with `Math.sin` on the integers as the parameter
`sin`.  The arithmetic is exact; a double `x` gives the same `x - Math.floor(x)` unless
`-2 ^ (-54) < x < 0`, which `Math.sin(n) * 10000` does not reach. -/
def seededRandom (sin : Int → ℚ) (seed : Int) : ℚ :=
  let x := sin seed * 10000
  x - (Int.floor x : ℚ)

/-- The characters `parseInt` skips at the start of its argument (white space and line
terminators). -/
def isStrWhiteSpace (c : Char) : Bool :=
  decide (c.toNat ∈ [9, 10, 11, 12, 13, 32, 160, 5760, 8232, 8233, 8239, 8287, 12288, 65279]) ||
    (decide (8192 ≤ c.toNat) && decide (c.toNat ≤ 8202))

/-- The value of a character as a digit below `radix`, if it is one. -/
def digitValue (radix : Nat) (c : Char) : Option Nat :=
  let n := c.toNat
  let v : Option Nat :=
    if 48 ≤ n ∧ n ≤ 57 then some (n - 48)
    else if 97 ≤ n ∧ n ≤ 122 then some (n - 87)
    else if 65 ≤ n ∧ n ≤ 90 then some (n - 55)
    else none
  match v with
  | some d => if d < radix then some d else none
  | none => none

/-- The longest prefix of digits below `radix`, as digit values. -/
def takeDigits (radix : Nat) : List Char → List Nat
  | [] => []
  | c :: rest =>
    match digitValue radix c with
    | some d => d :: takeDigits radix rest
    | none => []

/-- The built-in `parseInt(string)` with no radix argument: leading white space is
dropped, then an optional sign, then an optional `0x`/`0X` (radix 16, else 10), then the
longest run of digits; no digit gives `NaN`.  The integer is kept exactly. -/
def parseInt (string : String) : JSNum :=
  let trimmed := string.toList.dropWhile isStrWhiteSpace
  let signed : Bool × List Char :=
    match trimmed with
    | c :: rest =>
      if c.toNat = 45 then (true, rest) else if c.toNat = 43 then (false, rest)
      else (false, trimmed)
    | [] => (false, [])
  let based : Nat × List Char :=
    match signed.2 with
    | z :: x :: rest =>
      if z.toNat = 48 ∧ (x.toNat = 120 ∨ x.toNat = 88) then (16, rest) else (10, signed.2)
    | _ => (10, signed.2)
  let digits := takeDigits based.1 based.2
  if digits = [] then JSNum.nan
  else
    let value : Int := ((digits.foldl (fun acc d => acc * based.1 + d) 0 : Nat) : Int)
    JSNum.int (if signed.1 then -value else value)

/-- Source `initGame`, lines 150-172, run on the state `s`; `today` is the
`toDateString()` of line 160 and `seed` the value of `getDailySeed()`.  A string is truthy
when it is not empty. -/
def initGame (rng : Int → ℚ) (seed : JSString) (today : String) (s : Session) : Option Session :=
  let savedStreak := s.localStorage.streak
  let savedLastPlayed := s.localStorage.lastPlayed
  let savedBestTime := s.localStorage.bestTime
  let s1 :=
    match savedStreak with
    | some str => if str ≠ "" then { s with streak := parseInt str } else s
    | none => s
  let s2 :=
    match savedLastPlayed with
    | some str => if str ≠ "" then { s1 with lastPlayed := some str } else s1
    | none => s1
  let s3 :=
    match savedBestTime with
    | some str => if str ≠ "" then { s2 with bestTime := some (parseInt str) } else s2
    | none => s2
  let s4 :=
    if savedLastPlayed = some today then
      let savedComplete := s.localStorage.complete
      if savedComplete = some "true" then { s3 with isComplete := true } else s3
    else s3
  match generateMemoryGame rng seed with
  | some game => some { s4 with gameState := some game, difficulty := game.difficulty }
  | none => none

/-! ## Runs of a session -/

/-- One event of a session without reset: an accepted or rejected flip, the firing of a
scheduled timeout, a clock tick, or a run of the completion effect. -/
inductive Step (today yesterday : String) : Session → Session → Prop where
  | flip (s t : Session) (cardIndex : Nat) (h : handleCardFlip s cardIndex = some t) :
      Step today yesterday s t
  | fire (s : Session) (k : Nat) : Step today yesterday s (fireTimeout s k)
  | clock (s : Session) : Step today yesterday s (tick s)
  | effect (s : Session) : Step today yesterday s (completionEffect today yesterday s)

/-- The states a session reaches from `start` by any sequence of events. -/
inductive Reachable (today yesterday : String) (start : Session) : Session → Prop where
  | refl : Reachable today yesterday start start
  | step (s t : Session) (hs : Reachable today yesterday start s)
      (ht : Step today yesterday s t) : Reachable today yesterday start t

/-- A session as it stands right after loading: a board, nothing face-up, nothing matched,
no timeout scheduled. -/
def isFresh (s : Session) (g : GameState) : Prop :=
  s.gameState = some g ∧ s.flippedCards = [] ∧ s.matchedPairs = [] ∧ s.pending = []

/-- Well-formedness of a session on the board `g`: the face-up indices are distinct and at
most two, the matched pairs are distinct and occur on the board, and either no timeout is
scheduled and at most one tile is face-up, or exactly one timeout is scheduled, two tiles
are face-up, and a scheduled match names an unmatched pair of the board. -/
def wellFormed (g : GameState) (s : Session) : Prop :=
  s.gameState = some g ∧ s.flippedCards.Nodup ∧ s.flippedCards.length ≤ 2 ∧
    s.matchedPairs.Nodup ∧ (∀ p ∈ s.matchedPairs, ∃ c ∈ g.cards, c.pairId = p) ∧
    ((s.pending = [] ∧ s.flippedCards.length ≤ 1) ∨
      ∃ t, s.pending = [t] ∧ s.flippedCards.length = 2 ∧
        ∀ p, t = Timeout.matchFound p → p ∉ s.matchedPairs ∧ ∃ c ∈ g.cards, c.pairId = p)

/-! ## Polynomial form of the hash -/

/-- The unbounded polynomial sum `Σ c_i · 31 ^ (n - 1 - i)` over the code units of a seed
of length `n`, as the specification of the hash words it. -/
def polySum (seed : JSString) : Int :=
  ((List.range seed.length).map fun i => (seed.getD i 0 : Int) * 31 ^ (seed.length - 1 - i)).sum

/-! ## Sample values -/

/-- A storage with no key set. -/
def emptyStorage : Storage := { streak := none, lastPlayed := none, complete := none, bestTime := none }

/-- A board of two pairs. -/
def sampleBoard : GameState :=
  { cards := [{ id := 2, content := some "♦", pairId := 1 }, { id := 0, content := some "★", pairId := 0 },
              { id := 1, content := some "★", pairId := 0 }, { id := 3, content := some "♦", pairId := 1 }],
    difficulty := some Difficulty.medium, seed := codeUnits "2026-11-4-memory-Leadership",
    gridSize := { rows := 2, cols := 2 } }

/-- A session on the sample board before any flip. -/
def sampleSession : Session := { initialSession emptyStorage with gameState := some sampleBoard }

/-- A session on the sample board with both pairs matched after `timer` seconds. -/
def solvedSession (streak : JSNum) (lastPlayed : Option String) (bestTime : Option JSNum)
    (timer : Nat) : Session :=
  { sampleSession with matchedPairs := [0, 1], moves := 2, isTimerRunning := true,
                       streak := streak, lastPlayed := lastPlayed, bestTime := bestTime,
                       timer := timer }

/-- A stand-in for `seededRandom` with values `k / 1000`, `0 ≤ k < 1000`. -/
def sampleRng (n : Int) : ℚ := (((n * 7919 + 13) % 1000 : Int) : ℚ) / 1000

/-- The seed of 4 November 2026 for the pillar `Leadership`. -/
def sampleSeed : JSString := getDailySeed 2026 10 4 (codeUnits "Leadership")

/-- Loading of a stored number by `initGame`: a missing key or an empty string leaves the
value as it is, any other string goes through `parseInt`. -/
def loadedNumber (stored : Option String) (current : JSNum) : JSNum :=
  match stored with
  | some str => if str ≠ "" then parseInt str else current
  | none => current

/-- A storage holding a streak and a best time that are not decimal integers. -/
def malformedStorage : Storage :=
  { streak := some "abc", lastPlayed := none, complete := none, bestTime := some "12abc" }

/-- The sample session after the two tiles of pair 0 (positions 1 and 2) were flipped:
both are face-up and the match timeout is scheduled. -/
def pendingMatchSession : Session :=
  { sampleSession with flippedCards := [1, 2], moves := 1, isTimerRunning := true,
                       pending := [Timeout.matchFound 0] }

/-- The seed of 5 November 2026 for the pillar `Leadership`. -/
def nextDaySeed : JSString := getDailySeed 2026 10 5 (codeUnits "Leadership")

/-! ## Hash: 32-bit behaviour -/

theorem toInt32_isInt32 (x : Int) : isInt32 (toInt32 x) := by
  unfold isInt32 toInt32
  simp only []
  split <;> omega

theorem toInt32_of_isInt32 (x : Int) (h : isInt32 x) : toInt32 x = x := by
  unfold isInt32 at h
  unfold toInt32
  simp only []
  split <;> omega

theorem toInt32_hashStep (h : Int) (c : Nat) :
    toInt32 (hashStep h c) = specHashStep (toInt32 h) c := by
  unfold hashStep specHashStep shiftLeft5 toInt32
  simp only []
  split <;> split <;> split <;> split <;> omega

theorem toInt32_foldl_hashStep (seed : JSString) (h : Int) :
    toInt32 (seed.foldl hashStep h) = seed.foldl specHashStep (toInt32 h) := by
  induction seed generalizing h with
  | nil => rfl
  | cons c rest ih =>
    simp only [List.foldl_cons]
    rw [ih, toInt32_hashStep]

theorem specHash_isInt32 (seed : JSString) : isInt32 (specHash seed) := by
  unfold specHash
  induction seed using List.reverseRecOn with
  | nil => simp [isInt32]
  | append_singleton rest c _ =>
    simp only [List.foldl_append, List.foldl_cons, List.foldl_nil]
    exact toInt32_isInt32 _

/-- C1 (as the code behaves): wrapping the loop's hash to 32 bits gives the rolling hash
`h := wrap32 (h * 31 + charCode)` of the specification, and the hash itself equals that
rolling hash exactly when it lies in the signed 32-bit range. -/
theorem hashOf_wrap32_eq_specHash (seed : JSString) :
    toInt32 (hashOf seed) = specHash seed ∧
      (isInt32 (hashOf seed) ↔ hashOf seed = specHash seed) := by
  have hw : toInt32 (hashOf seed) = specHash seed := by
    have := toInt32_foldl_hashStep seed 0
    simpa [hashOf, specHash, toInt32] using this
  refine ⟨hw, ?_, ?_⟩
  · intro hr
    rw [← hw, toInt32_of_isInt32 _ hr]
  · intro he
    rw [he]
    exact specHash_isInt32 seed

set_option maxRecDepth 100000 in
/-- C1 (as stated) fails on the seed of 1 January 2024 for the pillar `Leadership`:
the loop's hash is `6127691756`, outside the signed 32-bit range, while the rolling hash
of the specification is `1832724460`. -/
theorem hashOf_leadership_not_int32 :
    hashOf (getDailySeed 2024 0 1 (codeUnits "Leadership")) = 6127691756 ∧
      specHash (getDailySeed 2024 0 1 (codeUnits "Leadership")) = 1832724460 ∧
      ¬ (isInt32 (hashOf (getDailySeed 2024 0 1 (codeUnits "Leadership"))) ∧
          hashOf (getDailySeed 2024 0 1 (codeUnits "Leadership")) =
            specHash (getDailySeed 2024 0 1 (codeUnits "Leadership"))) := by
  decide

/-! ## Difficulty selection -/

/-- C10: for every integer hash the selected difficulty is `difficulties[|hash| mod 3]`,
the index is below 3, and the result is one of easy, medium, hard, never `undefined`;
`getDailyDifficulty` applies this selection to the hash of the seed. -/
theorem difficultyAt_total (hashCode : Int) :
    difficultyAt hashCode = difficulties[hashCode.natAbs % 3]? ∧
      hashCode.natAbs % 3 < 3 ∧
      (∃ d, difficultyAt hashCode = some d ∧
        (d = Difficulty.easy ∨ d = Difficulty.medium ∨ d = Difficulty.hard)) ∧
      ∀ seed : JSString, getDailyDifficulty seed = difficultyAt (hashOf seed) := by
  have hlt : hashCode.natAbs % 3 < 3 := Nat.mod_lt _ (by decide)
  have hidx : ((hashCode.natAbs : Int) % (difficulties.length : Int)) =
      ((hashCode.natAbs % 3 : Nat) : Int) := by
    simp [difficulties]
  have heq : difficultyAt hashCode = difficulties[hashCode.natAbs % 3]? := by
    unfold difficultyAt arrayGet
    rw [hidx, if_pos (Int.ofNat_nonneg _), Int.toNat_ofNat]
  refine ⟨heq, hlt, ?_, fun seed => rfl⟩
  rw [heq]
  generalize hashCode.natAbs % 3 = k at hlt
  interval_cases k <;> simp [difficulties]

/-! ## Completion effect -/

theorem completionDue_iff (s : Session) (g : GameState) (hg : s.gameState = some g) :
    completionDue s = true ↔
      2 * s.matchedPairs.length = g.cards.length ∧ 0 < s.matchedPairs.length := by
  unfold completionDue
  rw [hg]
  simp only [Bool.and_eq_true, decide_eq_true_eq, gt_iff_lt]
  have h2 : ((s.matchedPairs.length : ℚ) = (g.cards.length : ℚ) / 2) ↔
      2 * s.matchedPairs.length = g.cards.length := by
    rw [eq_div_iff (by norm_num : (2 : ℚ) ≠ 0)]
    constructor
    · intro h
      have h3 : ((s.matchedPairs.length * 2 : Nat) : ℚ) = ((g.cards.length : Nat) : ℚ) := by
        push_cast
        exact h
      have h4 := Nat.cast_injective h3
      omega
    · intro h
      have h3 : ((s.matchedPairs.length * 2 : Nat) : ℚ) = ((g.cards.length : Nat) : ℚ) := by
        congr 1
        omega
      push_cast at h3
      exact h3
  rw [h2]

theorem completionEffect_streak (today yesterday : String) (s : Session)
    (hdue : completionDue s = true) :
    (completionEffect today yesterday s).streak = newStreak today yesterday s.streak s.lastPlayed := by
  unfold completionEffect
  rw [if_pos hdue]
  simp only []
  split <;> rfl

theorem completionEffect_lastPlayed (today yesterday : String) (s : Session) :
    (completionEffect today yesterday s).lastPlayed = s.lastPlayed ∧
      (completionEffect today yesterday s).gameState = s.gameState ∧
      (completionEffect today yesterday s).matchedPairs = s.matchedPairs ∧
      (completionEffect today yesterday s).timer = s.timer := by
  unfold completionEffect
  split
  · simp only []
    split <;> exact ⟨rfl, rfl, rfl, rfl⟩
  · exact ⟨rfl, rfl, rfl, rfl⟩

theorem completionEffect_bestTime (today yesterday : String) (s : Session)
    (hdue : completionDue s = true) :
    (completionEffect today yesterday s).bestTime =
      if isFalsy s.bestTime || timerLess s.timer s.bestTime then some (JSNum.int s.timer)
      else s.bestTime := by
  unfold completionEffect
  rw [if_pos hdue]
  simp only []
  split <;> rfl

/-- C2 (as the code behaves): when the completion update runs, the new streak is `s + 1`
if `lastPlayed` equals yesterday's date string (the test made first), otherwise the old
streak if `lastPlayed` equals today's date string, otherwise `1` (also when `lastPlayed` is
absent).  When the two date strings differ, `lastPlayed` equal to today keeps the streak;
(yesterday, 5) gives 6 and a day that is neither, with streak 6, gives 1. -/
theorem streak_law (today yesterday : String) (s : Session)
    (hdue : completionDue s = true) :
    (completionEffect today yesterday s).streak =
        (if s.lastPlayed = some yesterday then s.streak.succ
         else if s.lastPlayed = some today then s.streak
         else JSNum.int 1) ∧
      (∀ v : Int, s.streak = JSNum.int v → s.lastPlayed = some yesterday →
        (completionEffect today yesterday s).streak = JSNum.int (v + 1)) ∧
      (yesterday ≠ today → s.lastPlayed = some today →
        (completionEffect today yesterday s).streak = s.streak) ∧
      (s.lastPlayed ≠ some today → s.lastPlayed ≠ some yesterday →
        (completionEffect today yesterday s).streak = JSNum.int 1) ∧
      (s.streak = JSNum.int 5 → s.lastPlayed = some yesterday →
        (completionEffect today yesterday s).streak = JSNum.int 6) ∧
      (∀ threeDaysAgo : String, threeDaysAgo ≠ today → threeDaysAgo ≠ yesterday →
        s.streak = JSNum.int 6 → s.lastPlayed = some threeDaysAgo →
        (completionEffect today yesterday s).streak = JSNum.int 1) := by
  rw [completionEffect_streak today yesterday s hdue]
  refine ⟨?_, ?_, ?_, ?_, ?_, ?_⟩
  · unfold newStreak
    by_cases h1 : s.lastPlayed = some yesterday
    · simp [h1]
    · by_cases h2 : s.lastPlayed = some today
      · simp [h1, h2]
      · simp [h1, h2]
  · intro v hv hl
    simp [newStreak, hv, hl, JSNum.succ]
  · intro hday hl
    have hne : ¬ (some today = some yesterday) := fun h => hday (Option.some.inj h).symm
    simp [newStreak, hl, hne]
  · intro h1 h2
    simp [newStreak, h1, h2]
  · intro hv hl
    simp [newStreak, hv, hl, JSNum.succ]
  · intro d h1 h2 _ hl
    have hne1 : ¬ (some d = some yesterday) := fun h => h2 (Option.some.inj h)
    have hne2 : ¬ (some d = some today) := fun h => h1 (Option.some.inj h)
    simp [newStreak, hl, hne1, hne2]

theorem solvedSession_due (streak : JSNum) (lastPlayed : Option String)
    (bestTime : Option JSNum) (timer : Nat) :
    completionDue (solvedSession streak lastPlayed bestTime timer) = true := by
  rw [completionDue_iff _ sampleBoard rfl]
  exact ⟨rfl, Nat.zero_lt_succ _⟩

/-- C2 (as stated) fails when both date strings are the same, as at 23:30 on 1 November
2026 in New York, a day of 25 hours on which the instant 24 hours earlier is 00:30 of the
same day: with `lastPlayed` equal to today and streak 5 the new streak is 6, not 5. -/
theorem streak_law_same_date_strings :
    (completionEffect "Sun Nov 01 2026" "Sun Nov 01 2026"
        (solvedSession (JSNum.int 5) (some "Sun Nov 01 2026") none 40)).streak = JSNum.int 6 ∧
      (completionEffect "Sun Nov 01 2026" "Sun Nov 01 2026"
        (solvedSession (JSNum.int 5) (some "Sun Nov 01 2026") none 40)).streak ≠ JSNum.int 5 := by
  have hdue := solvedSession_due (JSNum.int 5) (some "Sun Nov 01 2026") none 40
  have h : (completionEffect "Sun Nov 01 2026" "Sun Nov 01 2026"
      (solvedSession (JSNum.int 5) (some "Sun Nov 01 2026") none 40)).streak = JSNum.int 6 := by
    rw [completionEffect_streak _ _ _ hdue]
    rfl
  refine ⟨h, ?_⟩
  rw [h]
  decide

/-- Witness of `streak_law`: on 4 November 2026 a streak of 5 last played on the 3rd
becomes 6, a streak of 6 last played on the 1st becomes 1, and a streak of 4 last played
on the 4th stays 4. -/
theorem streak_law_witness :
    (completionEffect "Wed Nov 04 2026" "Tue Nov 03 2026"
        (solvedSession (JSNum.int 5) (some "Tue Nov 03 2026") none 40)).streak = JSNum.int 6 ∧
      (completionEffect "Wed Nov 04 2026" "Tue Nov 03 2026"
        (solvedSession (JSNum.int 6) (some "Sun Nov 01 2026") none 40)).streak = JSNum.int 1 ∧
      (completionEffect "Wed Nov 04 2026" "Tue Nov 03 2026"
        (solvedSession (JSNum.int 4) (some "Wed Nov 04 2026") none 40)).streak = JSNum.int 4 :=
  ⟨(streak_law "Wed Nov 04 2026" "Tue Nov 03 2026"
      (solvedSession (JSNum.int 5) (some "Tue Nov 03 2026") none 40)
      (solvedSession_due _ _ _ _)).2.2.2.2.1 rfl rfl,
    (streak_law "Wed Nov 04 2026" "Tue Nov 03 2026"
      (solvedSession (JSNum.int 6) (some "Sun Nov 01 2026") none 40)
      (solvedSession_due _ _ _ _)).2.2.2.2.2 "Sun Nov 01 2026" (by decide) (by decide) rfl rfl,
    (streak_law "Wed Nov 04 2026" "Tue Nov 03 2026"
      (solvedSession (JSNum.int 4) (some "Wed Nov 04 2026") none 40)
      (solvedSession_due _ _ _ _)).2.2.1 (by decide) rfl⟩

theorem completionEffect_due (today yesterday : String) (s : Session)
    (hdue : completionDue s = true) :
    completionDue (completionEffect today yesterday s) = true := by
  obtain ⟨_, hg, hm, _⟩ := completionEffect_lastPlayed today yesterday s
  unfold completionDue at hdue ⊢
  rw [hg, hm]
  exact hdue

/-- The second run of the completion effect, on the state the first run left: with
`lastPlayed` equal to yesterday the streak goes up once more, in every other case it
keeps the value of the first run. -/
theorem completionEffect_twice_streak (today yesterday : String) (s : Session)
    (hdue : completionDue s = true) :
    (completionEffect today yesterday (completionEffect today yesterday s)).streak =
      if s.lastPlayed = some yesterday then (completionEffect today yesterday s).streak.succ
      else (completionEffect today yesterday s).streak := by
  have hdue2 := completionEffect_due today yesterday s hdue
  rw [completionEffect_streak today yesterday _ hdue2,
    (completionEffect_lastPlayed today yesterday s).1,
    completionEffect_streak today yesterday s hdue]
  unfold newStreak
  by_cases h1 : s.lastPlayed = some yesterday
  · simp [h1]
  · by_cases h2 : s.lastPlayed = some today
    · simp [h1, h2]
    · simp [h1, h2]

/-- C3 fails on the code: with all pairs matched, streak 5 and `lastPlayed` yesterday, the
first completion run sets the streak to 6 and leaves `lastPlayed` at yesterday, so the
second run on that state sets the streak to 7. -/
theorem recompletion_streak_grows :
    (completionEffect "Wed Nov 04 2026" "Tue Nov 03 2026"
        (solvedSession (JSNum.int 5) (some "Tue Nov 03 2026") none 40)).streak = JSNum.int 6 ∧
      (completionEffect "Wed Nov 04 2026" "Tue Nov 03 2026"
        (solvedSession (JSNum.int 5) (some "Tue Nov 03 2026") none 40)).lastPlayed =
          some "Tue Nov 03 2026" ∧
      (completionEffect "Wed Nov 04 2026" "Tue Nov 03 2026"
        (completionEffect "Wed Nov 04 2026" "Tue Nov 03 2026"
          (solvedSession (JSNum.int 5) (some "Tue Nov 03 2026") none 40))).streak = JSNum.int 7 := by
  have hdue := solvedSession_due (JSNum.int 5) (some "Tue Nov 03 2026") none 40
  have h1 : (completionEffect "Wed Nov 04 2026" "Tue Nov 03 2026"
      (solvedSession (JSNum.int 5) (some "Tue Nov 03 2026") none 40)).streak = JSNum.int 6 := by
    rw [completionEffect_streak _ _ _ hdue]
    rfl
  refine ⟨h1, (completionEffect_lastPlayed _ _ _).1, ?_⟩
  rw [completionEffect_twice_streak _ _ _ hdue, h1]
  rfl

/-- What the completion update does to the best time: an absent, `NaN` or zero best time
is replaced by the elapsed time, any other best time `b` becomes `min b t`. -/
theorem completionEffect_bestTime_cases (today yesterday : String) (s : Session)
    (hdue : completionDue s = true) :
    (s.bestTime = none → (completionEffect today yesterday s).bestTime = some (JSNum.int s.timer)) ∧
      (∀ b : Int, s.bestTime = some (JSNum.int b) → b ≠ 0 →
        (completionEffect today yesterday s).bestTime = some (JSNum.int (min b s.timer))) ∧
      (s.bestTime = some (JSNum.int 0) →
        (completionEffect today yesterday s).bestTime = some (JSNum.int s.timer)) := by
  rw [completionEffect_bestTime today yesterday s hdue]
  refine ⟨?_, ?_, ?_⟩
  · intro hb
    simp [hb, isFalsy]
  · intro b hb hb0
    simp only [hb, isFalsy, timerLess, hb0, decide_False, Bool.false_or, decide_eq_true_eq]
    by_cases hlt : (s.timer : Int) < b
    · rw [if_pos hlt, min_eq_right (le_of_lt hlt)]
    · rw [if_neg hlt, min_eq_left (not_lt.mp hlt)]
  · intro hb
    simp [hb, isFalsy]

/-- C4 fails on the code at a best time of 0: completing after 5 seconds replaces the
stored best time 0 by 5, which is larger than `min 0 5`. -/
theorem bestTime_zero_overwritten :
    (completionEffect "Wed Nov 04 2026" "Tue Nov 03 2026"
        (solvedSession (JSNum.int 1) (some "Wed Nov 04 2026") (some (JSNum.int 0)) 5)).bestTime =
      some (JSNum.int 5) ∧
      (completionEffect "Wed Nov 04 2026" "Tue Nov 03 2026"
        (solvedSession (JSNum.int 1) (some "Wed Nov 04 2026") (some (JSNum.int 0)) 5)).bestTime ≠
      some (JSNum.int (min 0 5)) := by
  have hdue := solvedSession_due (JSNum.int 1) (some "Wed Nov 04 2026") (some (JSNum.int 0)) 5
  have h := (completionEffect_bestTime_cases "Wed Nov 04 2026" "Tue Nov 03 2026" _ hdue).2.2 rfl
  refine ⟨h, ?_⟩
  rw [h]
  decide

/-- C9: on a session with a board, the completion update fires exactly when twice the
number of matched pairs is the number of cards and that number is positive; when it fires
it sets `isComplete` and clears `isTimerRunning`, otherwise it changes nothing; and a
clock tick in a state with `isComplete` set or `isTimerRunning` clear keeps the timer. -/
theorem completion_detection (today yesterday : String) (s : Session) (g : GameState)
    (hg : s.gameState = some g) :
    (completionDue s = true ↔
        ((s.matchedPairs.length : ℚ) = (g.cards.length : ℚ) / 2 ∧ 0 < s.matchedPairs.length)) ∧
      (completionDue s = true ↔
        (2 * s.matchedPairs.length = g.cards.length ∧ 0 < s.matchedPairs.length)) ∧
      (completionDue s = true →
        (completionEffect today yesterday s).isComplete = true ∧
          (completionEffect today yesterday s).isTimerRunning = false ∧
          (tick (completionEffect today yesterday s)).timer = s.timer) ∧
      (completionDue s = false → completionEffect today yesterday s = s) ∧
      (∀ t : Session, t.isComplete = true ∨ t.isTimerRunning = false → tick t = t) := by
  refine ⟨?_, completionDue_iff s g hg, ?_, ?_, ?_⟩
  · unfold completionDue
    rw [hg]
    simp
  · intro hdue
    unfold completionEffect
    rw [if_pos hdue]
    simp only []
    split <;> simp [tick]
  · intro hdue
    unfold completionEffect
    simp [hdue]
  · intro t ht
    unfold tick
    rcases ht with ht | ht <;> simp [ht]

/-- Witness of `completion_detection`: the solved sample session is due, and the update
completes it and stops the clock. -/
theorem completion_detection_witness :
    (completionEffect "Wed Nov 04 2026" "Tue Nov 03 2026"
        (solvedSession (JSNum.int 0) none none 40)).isComplete = true ∧
      (completionEffect "Wed Nov 04 2026" "Tue Nov 03 2026"
        (solvedSession (JSNum.int 0) none none 40)).isTimerRunning = false ∧
      (tick (completionEffect "Wed Nov 04 2026" "Tue Nov 03 2026"
        (solvedSession (JSNum.int 0) none none 40))).timer = 40 :=
  (completion_detection "Wed Nov 04 2026" "Tue Nov 03 2026"
    (solvedSession (JSNum.int 0) none none 40) sampleBoard rfl).2.2.1
    (solvedSession_due _ _ _ _)

/-! ## Card flips -/

/-- C7: on a session with a board and an index inside it, if two tiles are face-up, or the
index is face-up, or the tile's pair is matched, or the session is complete, then
`handleCardFlip` returns the session as it was: no field changes and no timeout is
scheduled. -/
theorem flip_rejected (s : Session) (g : GameState) (cardIndex : Nat) (card : Card)
    (hg : s.gameState = some g) (hc : g.cards[cardIndex]? = some card)
    (hrej : s.flippedCards.length ≥ 2 ∨ cardIndex ∈ s.flippedCards ∨
      card.pairId ∈ s.matchedPairs ∨ s.isComplete = true) :
    handleCardFlip s cardIndex = some s := by
  unfold handleCardFlip
  by_cases h1 : s.flippedCards.length ≥ 2 ∨ cardIndex ∈ s.flippedCards
  · rw [if_pos h1]
  · rw [if_neg h1]
    have h2 : card.pairId ∈ s.matchedPairs ∨ s.isComplete = true := by
      rcases hrej with h | h | h | h
      · exact absurd (Or.inl h) h1
      · exact absurd (Or.inr h) h1
      · exact Or.inl h
      · exact Or.inr h
    simp only [hg, hc]
    rw [if_pos h2]

/-- Witness of `flip_rejected`: on the sample board with pair 0 matched, tile 0 face-up and
the session complete, flipping tile 1 (pair 0) returns the same session. -/
theorem flip_rejected_witness :
    handleCardFlip { sampleSession with matchedPairs := [0], flippedCards := [0], isComplete := true } 1 =
      some { sampleSession with matchedPairs := [0], flippedCards := [0], isComplete := true } :=
  flip_rejected { sampleSession with matchedPairs := [0], flippedCards := [0], isComplete := true }
    sampleBoard 1 { id := 0, content := some "★", pairId := 0 } rfl rfl
    (Or.inr (Or.inr (Or.inr rfl)))

theorem handleCardFlip_first (s : Session) (g : GameState) (a : Nat) (ca : Card)
    (hg : s.gameState = some g) (hcomplete : s.isComplete = false) (hflipped : s.flippedCards = [])
    (ha : g.cards[a]? = some ca) (hma : ca.pairId ∉ s.matchedPairs) :
    handleCardFlip s a = some { s with isTimerRunning := true, flippedCards := [a] } := by
  obtain ⟨gs, fl, mp, mv, ic, st, lp, tm, run, bt, df, pd, ls⟩ := s
  simp only at hg hcomplete hflipped hma
  subst hg hcomplete hflipped
  cases run <;> simp [handleCardFlip, ha, hma]

theorem handleCardFlip_second (s : Session) (g : GameState) (a b : Nat) (ca cb : Card)
    (hg : s.gameState = some g) (hcomplete : s.isComplete = false) (hflipped : s.flippedCards = [a])
    (ha : g.cards[a]? = some ca) (hb : g.cards[b]? = some cb) (hab : a ≠ b)
    (hmb : cb.pairId ∉ s.matchedPairs) :
    handleCardFlip s b =
      some { s with isTimerRunning := true, flippedCards := [a, b], moves := s.moves + 1,
                    pending := s.pending ++
                      [if ca.pairId = cb.pairId then Timeout.matchFound ca.pairId
                       else Timeout.noMatch] } := by
  obtain ⟨gs, fl, mp, mv, ic, st, lp, tm, run, bt, df, pd, ls⟩ := s
  simp only at hg hcomplete hflipped hmb
  subst hg hcomplete hflipped
  have hne : ¬ b = a := fun h => hab h.symm
  cases run <;> by_cases hp : ca.pairId = cb.pairId <;>
    simp [handleCardFlip, ha, hb, hmb, hne, hp]

theorem eraseIdx_concat_length {α : Type} (xs : List α) (x : α) :
    (xs ++ [x]).eraseIdx xs.length = xs := by
  induction xs with
  | nil => rfl
  | cons y ys ih => simp [List.eraseIdx, ih]

theorem fireTimeout_last (s : Session) (t : Timeout) (rest : List Timeout)
    (hp : s.pending = rest ++ [t]) :
    fireTimeout s rest.length = t.run { s with pending := rest } := by
  unfold fireTimeout
  rw [hp]
  simp [eraseIdx_concat_length]

/-- C8: from a non-complete session with no tile face-up, legal flips of distinct tiles `a`
then `b` succeed; the first keeps `moves`, the second adds exactly 1 and schedules one
timeout; when that timeout fires the face-up set is empty, and the pair of tile `a` is
appended to `matchedPairs` if and only if both tiles have the same `pairId` (content plays
no part), otherwise `matchedPairs` is unchanged.  With nothing matched and `moves = 0`
before, two tiles of pair `p` give `matchedPairs = [p]` and `moves = 1`. -/
theorem match_resolution (s : Session) (g : GameState) (a b : Nat) (ca cb : Card)
    (hg : s.gameState = some g) (hcomplete : s.isComplete = false) (hflipped : s.flippedCards = [])
    (ha : g.cards[a]? = some ca) (hb : g.cards[b]? = some cb) (hab : a ≠ b)
    (hma : ca.pairId ∉ s.matchedPairs) (hmb : cb.pairId ∉ s.matchedPairs) :
    ∃ s1 s2 : Session,
      handleCardFlip s a = some s1 ∧ handleCardFlip s1 b = some s2 ∧
      s1.moves = s.moves ∧ s1.flippedCards = [a] ∧
      s2.moves = s.moves + 1 ∧ s2.flippedCards = [a, b] ∧
      s2.matchedPairs = s.matchedPairs ∧
      s2.pending = s.pending ++
        [if ca.pairId = cb.pairId then Timeout.matchFound ca.pairId else Timeout.noMatch] ∧
      (fireTimeout s2 s.pending.length).flippedCards = [] ∧
      (fireTimeout s2 s.pending.length).moves = s.moves + 1 ∧
      (fireTimeout s2 s.pending.length).pending = s.pending ∧
      ((fireTimeout s2 s.pending.length).matchedPairs = s.matchedPairs ++ [ca.pairId] ↔
        ca.pairId = cb.pairId) ∧
      (ca.pairId ≠ cb.pairId → (fireTimeout s2 s.pending.length).matchedPairs = s.matchedPairs) ∧
      (s.matchedPairs = [] → s.moves = 0 → ca.pairId = cb.pairId →
        (fireTimeout s2 s.pending.length).matchedPairs = [ca.pairId] ∧
          (fireTimeout s2 s.pending.length).moves = 1) := by
  have h1 := handleCardFlip_first s g a ca hg hcomplete hflipped ha hma
  have h2 := handleCardFlip_second { s with isTimerRunning := true, flippedCards := [a] } g a b ca cb
    hg hcomplete rfl ha hb hab hmb
  refine ⟨_, _, h1, h2, rfl, rfl, rfl, rfl, rfl, ?_⟩
  rw [fireTimeout_last _ _ s.pending rfl]
  by_cases hp : ca.pairId = cb.pairId
  · simp [hp, Timeout.run]
    intro hm hv
    simp [hm, hv]
  · simp [hp, Timeout.run]

/-- Witness of `match_resolution`: on the sample board tiles 1 and 2 both carry pair 0;
flipping them from the fresh session and firing the timeout gives `matchedPairs = [0]`
and `moves = 1`. -/
theorem match_resolution_witness :
    ∃ s1 s2 : Session,
      handleCardFlip sampleSession 1 = some s1 ∧ handleCardFlip s1 2 = some s2 ∧
      (fireTimeout s2 0).matchedPairs = [0] ∧ (fireTimeout s2 0).moves = 1 ∧
      (fireTimeout s2 0).flippedCards = [] := by
  obtain ⟨s1, s2, h1, h2, _, _, _, _, _, _, h9, _, _, _, _, h14⟩ :=
    match_resolution sampleSession sampleBoard 1 2
      { id := 0, content := some "★", pairId := 0 } { id := 1, content := some "★", pairId := 0 }
      rfl rfl rfl rfl rfl (by decide) (by decide) (by decide)
  exact ⟨s1, s2, h1, h2, (h14 rfl rfl rfl).1, (h14 rfl rfl rfl).2, h9⟩

/-! ## Shuffle -/

theorem cons_set_perm {α : Type} (xs : List α) (j : Nat) (b x : α) (hj : xs[j]? = some b) :
    (b :: xs.set j x).Perm (x :: xs) := by
  induction xs generalizing j with
  | nil => simp at hj
  | cons y ys ih =>
    cases j with
    | zero =>
      simp only [List.getElem?_cons_zero, Option.some.injEq] at hj
      subst hj
      exact List.Perm.swap x y ys
    | succ k =>
      simp only [List.getElem?_cons_succ] at hj
      simp only [List.set_cons_succ]
      have step1 : (b :: y :: ys.set k x).Perm (y :: b :: ys.set k x) := List.Perm.swap y b _
      have step2 : (y :: b :: ys.set k x).Perm (y :: x :: ys) := List.Perm.cons y (ih k hj)
      have step3 : (y :: x :: ys).Perm (x :: y :: ys) := List.Perm.swap x y ys
      exact (step1.trans step2).trans step3

theorem set_set_swap_perm {α : Type} (xs : List α) (i j : Nat) (a b : α)
    (hi : xs[i]? = some a) (hj : xs[j]? = some b) : ((xs.set i b).set j a).Perm xs := by
  induction xs generalizing i j with
  | nil => simp at hi
  | cons y ys ih =>
    cases i with
    | zero =>
      simp only [List.getElem?_cons_zero, Option.some.injEq] at hi
      subst hi
      cases j with
      | zero =>
        simp only [List.getElem?_cons_zero, Option.some.injEq] at hj
        subst hj
        simp
      | succ k =>
        simp only [List.getElem?_cons_succ] at hj
        simp only [List.set_cons_zero, List.set_cons_succ]
        exact cons_set_perm ys k b y hj
    | succ m =>
      simp only [List.getElem?_cons_succ] at hi
      cases j with
      | zero =>
        simp only [List.getElem?_cons_zero, Option.some.injEq] at hj
        subst hj
        simp only [List.set_cons_zero, List.set_cons_succ]
        exact cons_set_perm ys m a y hi
      | succ k =>
        simp only [List.getElem?_cons_succ] at hj
        simp only [List.set_cons_succ]
        exact List.Perm.cons y (ih m k hi hj)

theorem swapAt_perm {α : Type} (xs : List α) (i j : Nat) (hi : i < xs.length)
    (hj : j < xs.length) : ∃ ys, swapAt xs i j = some ys ∧ ys.Perm xs := by
  have h1 : xs[i]? = some xs[i] := List.getElem?_eq_getElem hi
  have h2 : xs[j]? = some xs[j] := List.getElem?_eq_getElem hj
  refine ⟨(xs.set i xs[j]).set j xs[i], ?_, set_set_swap_perm xs i j _ _ h1 h2⟩
  unfold swapAt
  rw [h1, h2]

theorem swapIndex_range (rng : Int → ℚ) (hrng : ∀ n, 0 ≤ rng n ∧ rng n < 1) (hashCode : Int)
    (i : Nat) : 0 ≤ swapIndex rng hashCode i ∧ swapIndex rng hashCode i ≤ (i : Int) := by
  obtain ⟨h0, h1⟩ := hrng (hashCode + (i : Int))
  have hpos : (0 : ℚ) < (i : ℚ) + 1 := by positivity
  unfold swapIndex
  constructor
  · exact Int.floor_nonneg.mpr (mul_nonneg h0 (le_of_lt hpos))
  · have hlt : rng (hashCode + (i : Int)) * ((i : ℚ) + 1) < (((i : Int) + 1 : Int) : ℚ) := by
      push_cast
      calc rng (hashCode + (i : Int)) * ((i : ℚ) + 1) < 1 * ((i : ℚ) + 1) :=
            mul_lt_mul_of_pos_right h1 hpos
        _ = (i : ℚ) + 1 := one_mul _
    have := Int.floor_lt.mpr hlt
    omega

theorem shuffleLoop_perm {α : Type} (rng : Int → ℚ) (hrng : ∀ n, 0 ≤ rng n ∧ rng n < 1)
    (hashCode : Int) (i : Nat) (xs : List α) (hi : i = 0 ∨ i < xs.length) :
    ∃ out, shuffleLoop rng hashCode i xs = some out ∧ out.Perm xs := by
  induction i generalizing xs with
  | zero => exact ⟨xs, rfl, List.Perm.refl xs⟩
  | succ k ih =>
    have hk : k + 1 < xs.length := by
      rcases hi with h | h
      · omega
      · exact h
    obtain ⟨j0, jle⟩ := swapIndex_range rng hrng hashCode (k + 1)
    have hj : (swapIndex rng hashCode (k + 1)).toNat < xs.length := by omega
    obtain ⟨ys, hys, hperm⟩ := swapAt_perm xs (k + 1) _ hk hj
    have hlen : ys.length = xs.length := hperm.length_eq
    obtain ⟨out, hout, hp⟩ := ih ys (Or.inr (by omega))
    refine ⟨out, ?_, hp.trans hperm⟩
    unfold shuffleLoop
    simp only [if_pos j0, hys]
    exact hout

theorem shuffleArray_returns_perm {α : Type} (rng : Int → ℚ)
    (hrng : ∀ n, 0 ≤ rng n ∧ rng n < 1) (array : List α) (seed : JSString) :
    ∃ out, shuffleArray rng array seed = some out ∧ out.length = array.length ∧
      out.Perm array := by
  have hi : array.length - 1 = 0 ∨ array.length - 1 < array.length := by omega
  obtain ⟨out, hout, hp⟩ := shuffleLoop_perm rng hrng (hashOf seed) (array.length - 1) array hi
  exact ⟨out, hout, hp.length_eq, hp⟩

/-- C6: with `seededRandom` in `[0, 1)`, every swap index `j` of the loop satisfies
`0 ≤ j ≤ i`, and `shuffleArray` returns a list of the same length that is a permutation
(same multiset of elements) of its input, for every array and seed. -/
theorem shuffleArray_perm {α : Type} (rng : Int → ℚ) (hrng : ∀ n, 0 ≤ rng n ∧ rng n < 1)
    (array : List α) (seed : JSString) :
    (∀ i : Nat, 0 ≤ swapIndex rng (hashOf seed) i ∧ swapIndex rng (hashOf seed) i ≤ (i : Int)) ∧
      ∃ out, shuffleArray rng array seed = some out ∧ out.length = array.length ∧
        out.Perm array :=
  ⟨fun i => swapIndex_range rng hrng (hashOf seed) i,
    shuffleArray_returns_perm rng hrng array seed⟩

theorem sampleRng_range (n : Int) : 0 ≤ sampleRng n ∧ sampleRng n < 1 := by
  unfold sampleRng
  have h0 : (0 : Int) ≤ (n * 7919 + 13) % 1000 := Int.emod_nonneg _ (by decide)
  have h1 : (n * 7919 + 13) % 1000 < (1000 : Int) := Int.emod_lt_of_pos _ (by decide)
  have h0q : (0 : ℚ) ≤ (((n * 7919 + 13) % 1000 : Int) : ℚ) := by exact_mod_cast h0
  have h1q : (((n * 7919 + 13) % 1000 : Int) : ℚ) < 1000 := by exact_mod_cast h1
  constructor
  · exact div_nonneg h0q (by norm_num)
  · rw [div_lt_one (by norm_num)]
    exact h1q

/-- Witness of `shuffleArray_perm`: shuffling five numbers with the sample generator and
the sample seed returns a permutation of them. -/
theorem shuffleArray_perm_witness :
    ∃ out, shuffleArray sampleRng [10, 20, 30, 40, 50] sampleSeed = some out ∧
      out.length = [10, 20, 30, 40, 50].length ∧ out.Perm [10, 20, 30, 40, 50] :=
  (shuffleArray_perm sampleRng sampleRng_range [10, 20, 30, 40, 50] sampleSeed).2

/-! ## Board generation -/

theorem makePairs_length (index : Nat) (content : List (Option String)) :
    (makePairs index content).length = 2 * content.length := by
  induction content generalizing index with
  | nil => rfl
  | cons item rest ih =>
    simp only [makePairs, List.length_cons, ih]
    omega

theorem makePairs_countP (p index : Nat) (content : List (Option String)) :
    (makePairs index content).countP (fun c => decide (c.pairId = p)) =
      if index ≤ p ∧ p < index + content.length then 2 else 0 := by
  induction content generalizing index with
  | nil =>
    have hno : ¬ (index ≤ p ∧ p < index + ([] : List (Option String)).length) := by
      simp only [List.length_nil]
      omega
    rw [if_neg hno]
    rfl
  | cons item rest ih =>
    simp only [makePairs, List.countP_cons, ih, List.length_cons]
    by_cases h1 : index = p
    · subst h1
      simp
    · have h2 : ¬ (index = p) := h1
      simp only [h2, decide_False, Bool.false_eq_true, if_false, Nat.add_zero]
      by_cases h3 : index + 1 ≤ p ∧ p < index + 1 + rest.length
      · rw [if_pos h3, if_pos (by omega)]
      · rw [if_neg h3, if_neg (by omega)]

theorem makePairs_mem (index : Nat) (content : List (Option String)) (c : Card)
    (hc : c ∈ makePairs index content) :
    index ≤ c.pairId ∧ c.pairId < index + content.length ∧
      content[c.pairId - index]? = some c.content := by
  induction content generalizing index with
  | nil => simp [makePairs] at hc
  | cons item rest ih =>
    simp only [makePairs, List.mem_cons] at hc
    rcases hc with h | h | h
    · subst h
      simp
    · subst h
      simp
    · obtain ⟨h1, h2, h3⟩ := ih (index + 1) h
      refine ⟨by omega, by simp only [List.length_cons]; omega, ?_⟩
      have hsub : c.pairId - index = (c.pairId - (index + 1)) + 1 := by omega
      rw [hsub, List.getElem?_cons_succ]
      exact h3

theorem generateCardContent_length (rng : Int → ℚ) (seed : JSString)
    (difficulty : Option Difficulty) :
    (generateCardContent rng seed difficulty).length = pairCountOf difficulty := by
  simp [generateCardContent]

/-- C5: with `seededRandom` in `[0, 1)`, for every seed `generateMemoryGame` returns a
board of exactly `2 × pairCount` tiles for the pair count of the day's difficulty; every
tile has a `pairId` below `pairCount`; and for every `pairId` below `pairCount` exactly two
tiles carry it, with one and the same content. -/
theorem pairing_invariant (rng : Int → ℚ) (hrng : ∀ n, 0 ≤ rng n ∧ rng n < 1)
    (seed : JSString) :
    ∃ g, generateMemoryGame rng seed = some g ∧
      g.difficulty = getDailyDifficulty seed ∧
      g.cards.length = 2 * pairCountOf g.difficulty ∧
      (∀ c ∈ g.cards, c.pairId < pairCountOf g.difficulty) ∧
      ∀ p, p < pairCountOf g.difficulty →
        (g.cards.filter (fun c => decide (c.pairId = p))).length = 2 ∧
          ∀ c1 ∈ g.cards, ∀ c2 ∈ g.cards, c1.pairId = p → c2.pairId = p →
            c1.content = c2.content := by
  obtain ⟨out, hout, hlen, hperm⟩ := shuffleArray_returns_perm rng hrng
    (makePairs 0 (generateCardContent rng seed (getDailyDifficulty seed))) seed
  have hclen := generateCardContent_length rng seed (getDailyDifficulty seed)
  refine ⟨{ cards := out, difficulty := getDailyDifficulty seed, seed := seed,
            gridSize := getGridSize (getDailyDifficulty seed) }, ?_, rfl, ?_, ?_, ?_⟩
  · unfold generateMemoryGame
    simp only [hout]
  · simp only [hlen, makePairs_length, hclen]
  · intro c hc
    have hm := makePairs_mem 0 _ c (hperm.subset hc)
    simp only [hclen] at hm
    show c.pairId < pairCountOf (getDailyDifficulty seed)
    omega
  · intro p hp
    constructor
    · rw [← List.countP_eq_length_filter, hperm.countP_eq, makePairs_countP, hclen]
      simp only at hp
      rw [if_pos (by omega)]
    · intro c1 h1 c2 h2 e1 e2
      have m1 := (makePairs_mem 0 _ c1 (hperm.subset h1)).2.2
      have m2 := (makePairs_mem 0 _ c2 (hperm.subset h2)).2.2
      rw [e1] at m1
      rw [e2] at m2
      rw [m1] at m2
      exact Option.some.inj m2

/-- Witness of `pairing_invariant`: with the sample generator, the board of the sample seed
exists and holds twice as many tiles as its difficulty has pairs. -/
theorem pairing_invariant_witness :
    ∃ g, generateMemoryGame sampleRng sampleSeed = some g ∧
      g.cards.length = 2 * pairCountOf g.difficulty := by
  obtain ⟨g, hg, _, hlen, _⟩ := pairing_invariant sampleRng sampleRng_range sampleSeed
  exact ⟨g, hg, hlen⟩

/-! ## Boards that were returned -/

theorem swapAt_some_perm {α : Type} (xs ys : List α) (i j : Nat)
    (h : swapAt xs i j = some ys) : ys.Perm xs := by
  unfold swapAt at h
  cases hi : xs[i]? with
  | none => simp [hi] at h
  | some a =>
    cases hj : xs[j]? with
    | none => simp [hi, hj] at h
    | some b =>
      simp only [hi, hj, Option.some.injEq] at h
      rw [← h]
      exact set_set_swap_perm xs i j a b hi hj

theorem shuffleLoop_some_perm {α : Type} (rng : Int → ℚ) (hashCode : Int) (i : Nat)
    (xs out : List α) (h : shuffleLoop rng hashCode i xs = some out) : out.Perm xs := by
  induction i generalizing xs with
  | zero =>
    simp only [shuffleLoop, Option.some.injEq] at h
    rw [← h]
  | succ k ih =>
    unfold shuffleLoop at h
    simp only [] at h
    split at h
    · cases hs : swapAt xs (k + 1) (swapIndex rng hashCode (k + 1)).toNat with
      | none => simp [hs] at h
      | some ys =>
        simp only [hs] at h
        exact (ih ys h).trans (swapAt_some_perm xs ys _ _ hs)
    · simp at h

theorem generateMemoryGame_some (rng : Int → ℚ) (seed : JSString) (g : GameState)
    (h : generateMemoryGame rng seed = some g) :
    g.cards.Perm (makePairs 0 (generateCardContent rng seed (getDailyDifficulty seed))) ∧
      g.difficulty = getDailyDifficulty seed ∧ g.seed = seed ∧
      g.gridSize = getGridSize (getDailyDifficulty seed) := by
  unfold generateMemoryGame at h
  simp only [] at h
  cases hs : shuffleArray rng
      (makePairs 0 (generateCardContent rng seed (getDailyDifficulty seed))) seed with
  | none => simp [hs] at h
  | some out =>
    simp only [hs, Option.some.injEq] at h
    subst h
    exact ⟨shuffleLoop_some_perm rng (hashOf seed) _ _ out hs, rfl, rfl, rfl⟩

theorem generateMemoryGame_returns (rng : Int → ℚ) (hrng : ∀ n, 0 ≤ rng n ∧ rng n < 1)
    (seed : JSString) : ∃ g, generateMemoryGame rng seed = some g := by
  obtain ⟨out, hout, _, _⟩ := shuffleArray_returns_perm rng hrng
    (makePairs 0 (generateCardContent rng seed (getDailyDifficulty seed))) seed
  refine ⟨{ cards := out, difficulty := getDailyDifficulty seed, seed := seed,
            gridSize := getGridSize (getDailyDifficulty seed) }, ?_⟩
  unfold generateMemoryGame
  simp only [hout]

theorem generateMemoryGame_cards_length (rng : Int → ℚ) (seed : JSString) (g : GameState)
    (h : generateMemoryGame rng seed = some g) :
    g.cards.length = 2 * pairCountOf g.difficulty := by
  obtain ⟨hperm, hd, _, _⟩ := generateMemoryGame_some rng seed g h
  rw [hperm.length_eq, makePairs_length, generateCardContent_length, hd]

/-! ## Difficulty table -/

/-- C11: `generateCardContent` selects 6, 8 and 12 pairs for easy, medium and hard,
`getGridSize` returns 3×4, 4×4 and 4×6 for them, for every difficulty value
`rows × cols = 2 × pairCount`, and every board `generateMemoryGame` returns has exactly
`rows × cols` cards for its own grid size. -/
theorem difficulty_table (rng : Int → ℚ) (seed : JSString) (g : GameState)
    (hg : generateMemoryGame rng seed = some g) :
    (∀ d : Option Difficulty, (generateCardContent rng seed d).length = pairCountOf d) ∧
      pairCountOf (some Difficulty.easy) = 6 ∧ pairCountOf (some Difficulty.medium) = 8 ∧
      pairCountOf (some Difficulty.hard) = 12 ∧
      getGridSize (some Difficulty.easy) = { rows := 3, cols := 4 } ∧
      getGridSize (some Difficulty.medium) = { rows := 4, cols := 4 } ∧
      getGridSize (some Difficulty.hard) = { rows := 4, cols := 6 } ∧
      (∀ d : Option Difficulty,
        (getGridSize d).rows * (getGridSize d).cols = 2 * pairCountOf d) ∧
      g.gridSize = getGridSize g.difficulty ∧
      g.gridSize.rows * g.gridSize.cols = 2 * pairCountOf g.difficulty ∧
      g.cards.length = g.gridSize.rows * g.gridSize.cols := by
  have htable : ∀ d : Option Difficulty,
      (getGridSize d).rows * (getGridSize d).cols = 2 * pairCountOf d := by
    intro d
    rcases d with _ | d
    · rfl
    · cases d <;> rfl
  obtain ⟨_, hd, _, hgrid⟩ := generateMemoryGame_some rng seed g hg
  have hgrid2 : g.gridSize = getGridSize g.difficulty := by rw [hgrid, hd]
  refine ⟨fun d => generateCardContent_length rng seed d, rfl, rfl, rfl, rfl, rfl, rfl,
    htable, hgrid2, ?_, ?_⟩
  · rw [hgrid2]
    exact htable g.difficulty
  · rw [generateMemoryGame_cards_length rng seed g hg, hgrid2]
    exact (htable g.difficulty).symm

/-- Witness of `difficulty_table`: the board of the sample seed under the sample generator
has as many cards as its grid has cells. -/
theorem difficulty_table_witness :
    ∃ g, generateMemoryGame sampleRng sampleSeed = some g ∧
      g.cards.length = g.gridSize.rows * g.gridSize.cols := by
  obtain ⟨g, hg⟩ := generateMemoryGame_returns sampleRng sampleRng_range sampleSeed
  exact ⟨g, hg, (difficulty_table sampleRng sampleSeed g hg).2.2.2.2.2.2.2.2.2.2⟩

/-! ## Content selection -/

theorem seededRandom_range (sin : Int → ℚ) (n : Int) :
    0 ≤ seededRandom sin n ∧ seededRandom sin n < 1 := by
  unfold seededRandom
  simp only []
  have h1 := Int.floor_le (sin n * 10000)
  have h2 := Int.lt_floor_add_one (sin n * 10000)
  constructor <;> linarith

theorem contentIndex_range (rng : Int → ℚ) (hrng : ∀ n, 0 ≤ rng n ∧ rng n < 1)
    (hashCode : Int) (i : Nat) :
    0 ≤ contentIndex rng hashCode i ∧ contentIndex rng hashCode i ≤ 25 := by
  obtain ⟨h0, h1⟩ := hrng (hashCode + (i : Int) * 100)
  have hlen : (availableContent.length : ℚ) = 26 := by
    simp [availableContent, symbols, numbers]
  unfold contentIndex
  rw [hlen]
  constructor
  · exact Int.floor_nonneg.mpr (mul_nonneg h0 (by norm_num))
  · have hlt : rng (hashCode + (i : Int) * 100) * 26 < ((26 : Int) : ℚ) := by
      push_cast
      linarith
    have := Int.floor_lt.mpr hlt
    omega

theorem arrayGet_mem {α : Type} (xs : List α) (index : Int) (h0 : 0 ≤ index)
    (h1 : index < (xs.length : Int)) : ∃ x, arrayGet xs index = some x ∧ x ∈ xs := by
  have hlt : index.toNat < xs.length := by omega
  refine ⟨xs[index.toNat], ?_, List.getElem_mem _⟩
  unfold arrayGet
  rw [if_pos h0]
  exact List.getElem?_eq_getElem hlt

theorem generateCardContent_mem (rng : Int → ℚ) (hrng : ∀ n, 0 ≤ rng n ∧ rng n < 1)
    (seed : JSString) (difficulty : Option Difficulty) (e : Option String)
    (he : e ∈ generateCardContent rng seed difficulty) :
    ∃ glyph, e = some glyph ∧ glyph ∈ availableContent := by
  unfold generateCardContent at he
  simp only [List.mem_map, List.mem_range] at he
  obtain ⟨i, _, hi⟩ := he
  obtain ⟨h0, h1⟩ := contentIndex_range rng hrng (hashOf seed) i
  have hlen : (availableContent.length : Int) = 26 := by
    simp [availableContent, symbols, numbers]
  obtain ⟨x, hx, hmem⟩ := arrayGet_mem availableContent _ h0 (by omega)
  exact ⟨x, by rw [← hi, hx], hmem⟩

/-- C12: with `Math.sin` any function on the integers and exact arithmetic,
`seededRandom(n) = x − floor(x)` for `x = sin(n) · 10000` lies in `[0, 1)`; so for every
seed and difficulty each content index lies in `0..25`, and `generateCardContent` returns
exactly `pairCount` items, each a glyph of the pool of 26 (16 symbols followed by 10
digits) and none `undefined`. -/
theorem content_in_pool (sin : Int → ℚ) :
    (∀ n : Int, 0 ≤ seededRandom sin n ∧ seededRandom sin n < 1) ∧
      symbols.length = 16 ∧ numbers.length = 10 ∧ availableContent = symbols ++ numbers ∧
      availableContent.length = 26 ∧
      ∀ (seed : JSString) (difficulty : Option Difficulty),
        (∀ i : Nat, 0 ≤ contentIndex (seededRandom sin) (hashOf seed) i ∧
          contentIndex (seededRandom sin) (hashOf seed) i ≤ 25) ∧
        (generateCardContent (seededRandom sin) seed difficulty).length =
          pairCountOf difficulty ∧
        ∀ e ∈ generateCardContent (seededRandom sin) seed difficulty,
          e ≠ none ∧ ∃ glyph, e = some glyph ∧ glyph ∈ availableContent := by
  refine ⟨seededRandom_range sin, rfl, rfl, rfl, rfl, ?_⟩
  intro seed difficulty
  refine ⟨fun i => contentIndex_range _ (seededRandom_range sin) (hashOf seed) i,
    generateCardContent_length _ seed difficulty, ?_⟩
  intro e he
  obtain ⟨glyph, hg, hmem⟩ :=
    generateCardContent_mem _ (seededRandom_range sin) seed difficulty e he
  refine ⟨?_, glyph, hg, hmem⟩
  rw [hg]
  exact Option.some_ne_none glyph

/-! ## Loading and reset -/

theorem initGame_some (rng : Int → ℚ) (seed : JSString) (today : String) (s : Session)
    (g : GameState) (hg : generateMemoryGame rng seed = some g) :
    ∃ t, initGame rng seed today s = some t ∧
      t.gameState = some g ∧ t.difficulty = g.difficulty ∧
      t.streak = loadedNumber s.localStorage.streak s.streak ∧
      t.bestTime = (match s.localStorage.bestTime with
        | some str => if str ≠ "" then some (parseInt str) else s.bestTime
        | none => s.bestTime) ∧
      t.isComplete = (if s.localStorage.lastPlayed = some today ∧
          s.localStorage.complete = some "true" then true else s.isComplete) ∧
      t.flippedCards = s.flippedCards ∧ t.matchedPairs = s.matchedPairs ∧
      t.pending = s.pending ∧ t.moves = s.moves ∧ t.timer = s.timer ∧
      t.localStorage = s.localStorage := by
  obtain ⟨gs, fl, mp, mv, ic, st, lp, tm, run, bt, df, pd, ⟨sst, slp, scp, sbt⟩⟩ := s
  unfold initGame loadedNumber
  simp only [hg]
  refine ⟨_, rfl, ?_⟩
  rcases sst with _ | a <;> rcases slp with _ | b <;> rcases sbt with _ | c <;>
    (try by_cases ha : a = "") <;> (try by_cases hb : b = "") <;>
    (try by_cases hc : c = "") <;>
    (try by_cases hd : some b = some today) <;> by_cases he : scp = some "true" <;>
    simp_all

theorem handleReset_some (rng : Int → ℚ) (seed : JSString) (s t : Session)
    (h : handleReset rng seed s = some t) :
    ∃ g, generateMemoryGame rng seed = some g ∧
      t = { s with flippedCards := [], matchedPairs := [], moves := 0, timer := 0,
                   isTimerRunning := false, isComplete := false, gameState := some g,
                   difficulty := g.difficulty } := by
  unfold handleReset at h
  cases hg : generateMemoryGame rng seed with
  | none => simp [hg] at h
  | some g =>
    simp only [hg, Option.some.injEq] at h
    exact ⟨g, rfl, h.symm⟩

theorem handleReset_returns (rng : Int → ℚ) (hrng : ∀ n, 0 ≤ rng n ∧ rng n < 1)
    (seed : JSString) (s : Session) : ∃ t, handleReset rng seed s = some t := by
  obtain ⟨g, hg⟩ := generateMemoryGame_returns rng hrng seed
  unfold handleReset
  simp only [hg]
  exact ⟨_, rfl⟩

theorem handleReset_pending_fires (rng : Int → ℚ) (seed : JSString) (s t : Session)
    (h : handleReset rng seed s = some t) :
    t.matchedPairs = [] ∧ t.flippedCards = [] ∧ t.moves = 0 ∧ t.pending = s.pending ∧
      ∀ (k : Nat) (p : Nat), s.pending[k]? = some (Timeout.matchFound p) →
        (fireTimeout t k).matchedPairs = [p] ∧ (fireTimeout t k).flippedCards = [] ∧
          (fireTimeout t k).pending = s.pending.eraseIdx k := by
  obtain ⟨g, _, ht⟩ := handleReset_some rng seed s t h
  subst ht
  refine ⟨rfl, rfl, rfl, rfl, ?_⟩
  intro k p hk
  unfold fireTimeout
  simp only [hk]
  exact ⟨rfl, rfl, rfl⟩

/-- C13 (as the code behaves): `handleReset` empties `matchedPairs` and `flippedCards` but
keeps every scheduled timeout; a match resolution scheduled before the reset still fires
afterwards, and then `matchedPairs` of the new session holds its `pairId` although no tile
was flipped since the reset. -/
theorem reset_keeps_pending (rng : Int → ℚ) (seed : JSString) (s t : Session)
    (h : handleReset rng seed s = some t) :
    t.matchedPairs = [] ∧ t.flippedCards = [] ∧ t.moves = 0 ∧ t.pending = s.pending ∧
      ∀ (k : Nat) (p : Nat), s.pending[k]? = some (Timeout.matchFound p) →
        (fireTimeout t k).matchedPairs = [p] ∧ (fireTimeout t k).flippedCards = [] ∧
          (fireTimeout t k).pending = s.pending.eraseIdx k := by
  obtain ⟨g, _, ht⟩ := handleReset_some rng seed s t h
  subst ht
  refine ⟨rfl, rfl, rfl, rfl, ?_⟩
  intro k p hk
  unfold fireTimeout
  simp only [hk]
  exact ⟨rfl, rfl, rfl⟩

/-- C13 (as stated) fails: in the sample session with tiles 1 and 2 of pair 0 face-up and
their match resolution pending, `handleReset` returns a session with `matchedPairs = []`,
and the resolution then fires on it and makes `matchedPairs = [0]` with no new flip. -/
theorem reset_stale_resolution_fires :
    ∃ t, handleReset sampleRng sampleSeed pendingMatchSession = some t ∧
      t.matchedPairs = [] ∧ t.flippedCards = [] ∧ (fireTimeout t 0).matchedPairs = [0] ∧
      ¬ ((fireTimeout t 0).matchedPairs = []) := by
  obtain ⟨t, ht⟩ := handleReset_returns sampleRng sampleRng_range sampleSeed pendingMatchSession
  obtain ⟨h1, h2, _, _, h5⟩ :=
    handleReset_pending_fires sampleRng sampleSeed pendingMatchSession t ht
  have hf := (h5 0 0 rfl).1
  refine ⟨t, ht, h1, h2, hf, ?_⟩
  rw [hf]
  decide

/-- Witness of `reset_keeps_pending`: the reset of the sample session with a pending match
of pair 0 keeps the timeout, and firing it gives `matchedPairs = [0]`. -/
theorem reset_keeps_pending_witness :
    ∃ t, handleReset sampleRng sampleSeed pendingMatchSession = some t ∧
      t.pending = [Timeout.matchFound 0] ∧ (fireTimeout t 0).matchedPairs = [0] := by
  obtain ⟨t, ht⟩ := handleReset_returns sampleRng sampleRng_range sampleSeed pendingMatchSession
  have h := reset_keeps_pending sampleRng sampleSeed pendingMatchSession t ht
  exact ⟨t, ht, h.2.2.2.1, (h.2.2.2.2 0 0 rfl).1⟩

/-- C14: with `seededRandom` in `[0, 1)`, `initGame` on a freshly mounted component
returns a session, and that session has `isComplete = true` if and only if the stored
last-played date is today's date string and the stored completion flag is `'true'`; with a
last-played date of another day the session is not complete, whatever the flag. -/
theorem replay_guard (rng : Int → ℚ) (hrng : ∀ n, 0 ≤ rng n ∧ rng n < 1) (seed : JSString)
    (today : String) (storage : Storage) :
    ∃ t, initGame rng seed today (initialSession storage) = some t ∧
      (t.isComplete = true ↔
        (storage.lastPlayed = some today ∧ storage.complete = some "true")) ∧
      (∀ earlier : String, earlier ≠ today → storage.lastPlayed = some earlier →
        t.isComplete = false) := by
  obtain ⟨g, hg⟩ := generateMemoryGame_returns rng hrng seed
  obtain ⟨t, ht, _, _, _, _, hc, _⟩ := initGame_some rng seed today (initialSession storage) g hg
  refine ⟨t, ht, ?_, ?_⟩
  · rw [hc]
    by_cases hcond : storage.lastPlayed = some today ∧ storage.complete = some "true"
    · simp [initialSession, hcond]
    · simp only [initialSession, hcond, if_false]
      simp
  · intro earlier hne hl
    rw [hc]
    have hcond : ¬ (storage.lastPlayed = some today ∧ storage.complete = some "true") := by
      intro hboth
      rw [hl] at hboth
      exact hne (Option.some.inj hboth.1)
    simp only [initialSession, hcond, if_false]

/-- Witness of `replay_guard`: a completion flag stored on 3 November does not make the
session of 4 November complete. -/
theorem replay_guard_witness :
    ∃ t, initGame sampleRng sampleSeed "Wed Nov 04 2026"
        (initialSession { streak := some "3", lastPlayed := some "Tue Nov 03 2026",
                          complete := some "true", bestTime := none }) = some t ∧
      t.isComplete = false := by
  obtain ⟨t, ht, _, h⟩ := replay_guard sampleRng sampleRng_range sampleSeed "Wed Nov 04 2026"
    { streak := some "3", lastPlayed := some "Tue Nov 03 2026", complete := some "true",
      bestTime := none }
  exact ⟨t, ht, h "Tue Nov 03 2026" (by decide) rfl⟩

theorem initGame_loaded (rng : Int → ℚ) (hrng : ∀ n, 0 ≤ rng n ∧ rng n < 1)
    (seed : JSString) (today : String) (storage : Storage) :
    ∃ t, initGame rng seed today (initialSession storage) = some t ∧
      t.streak = loadedNumber storage.streak (JSNum.int 0) ∧
      t.bestTime = (match storage.bestTime with
        | some str => if str ≠ "" then some (parseInt str) else none
        | none => none) := by
  obtain ⟨g, hg⟩ := generateMemoryGame_returns rng hrng seed
  obtain ⟨t, ht, _, _, hs, hb, _⟩ := initGame_some rng seed today (initialSession storage) g hg
  exact ⟨t, ht, hs, hb⟩

/-- C15 (as the code behaves): with `seededRandom` in `[0, 1)`, `initGame` loads a stored
streak or best time that is not the empty string as `parseInt` of it, so `'12abc'` loads
12 and `'abc'` loads `NaN`; only a missing key or the empty string leaves streak 0 and
best time `null`.  At completion a `NaN` best time is replaced by the elapsed time as an
absent one is, and with `lastPlayed` neither today nor yesterday the new streak is 1
whatever streak was loaded. -/
theorem malformed_values_loaded (rng : Int → ℚ) (hrng : ∀ n, 0 ≤ rng n ∧ rng n < 1)
    (seed : JSString) (today yesterday : String) (storage : Storage) :
    (∃ t, initGame rng seed today (initialSession storage) = some t ∧
      (∀ str : String, storage.streak = some str → str ≠ "" → t.streak = parseInt str) ∧
      (storage.streak = none ∨ storage.streak = some "" → t.streak = JSNum.int 0) ∧
      (∀ str : String, storage.bestTime = some str → str ≠ "" →
        t.bestTime = some (parseInt str)) ∧
      (storage.bestTime = none ∨ storage.bestTime = some "" → t.bestTime = none)) ∧
      parseInt "abc" = JSNum.nan ∧ parseInt "12abc" = JSNum.int 12 ∧
      (∀ s : Session, completionDue s = true → s.bestTime = some JSNum.nan →
        (completionEffect today yesterday s).bestTime = some (JSNum.int s.timer)) ∧
      (∀ s : Session, completionDue s = true → s.lastPlayed ≠ some today →
        s.lastPlayed ≠ some yesterday →
        (completionEffect today yesterday s).streak = JSNum.int 1) := by
  refine ⟨?_, by decide, by decide, ?_, ?_⟩
  · obtain ⟨t, ht, hs, hb⟩ := initGame_loaded rng hrng seed today storage
    refine ⟨t, ht, ?_, ?_, ?_, ?_⟩
    · intro str h1 h2
      rw [hs, h1]
      simp [loadedNumber, h2]
    · intro h
      rw [hs]
      rcases h with h | h <;> simp [loadedNumber, h]
    · intro str h1 h2
      rw [hb, h1]
      simp [h2]
    · intro h
      rw [hb]
      rcases h with h | h <;> simp [h]
  · intro s hdue hb
    rw [completionEffect_bestTime today yesterday s hdue, hb]
    rfl
  · intro s hdue h1 h2
    rw [completionEffect_streak today yesterday s hdue]
    simp [newStreak, h1, h2]

/-- C15 (as stated) fails: with the stored streak `'abc'` and the stored best time
`'12abc'`, `initGame` loads the streak `NaN` and the best time 12, while with both keys
absent it loads the streak 0 and the best time `null`. -/
theorem malformed_values_not_absent :
    ∃ t u, initGame sampleRng sampleSeed "Wed Nov 04 2026" (initialSession malformedStorage) =
        some t ∧
      initGame sampleRng sampleSeed "Wed Nov 04 2026" (initialSession emptyStorage) = some u ∧
      t.streak = JSNum.nan ∧ t.bestTime = some (JSNum.int 12) ∧
      u.streak = JSNum.int 0 ∧ u.bestTime = none ∧
      ¬ (t.streak = u.streak ∧ t.bestTime = u.bestTime) := by
  obtain ⟨t, ht, hs, hb⟩ :=
    initGame_loaded sampleRng sampleRng_range sampleSeed "Wed Nov 04 2026" malformedStorage
  obtain ⟨u, hu, hs2, hb2⟩ :=
    initGame_loaded sampleRng sampleRng_range sampleSeed "Wed Nov 04 2026" emptyStorage
  have e1 : t.streak = JSNum.nan := by
    rw [hs]
    decide
  have e2 : t.bestTime = some (JSNum.int 12) := by
    rw [hb]
    decide
  have e3 : u.streak = JSNum.int 0 := by
    rw [hs2]
    rfl
  have e4 : u.bestTime = none := by
    rw [hb2]
    rfl
  refine ⟨t, u, ht, hu, e1, e2, e3, e4, ?_⟩
  rw [e1, e2, e3, e4]
  decide

/-- Witness of `malformed_values_loaded`: the session loaded from the malformed sample
storage has the streak `parseInt 'abc'` and the best time `parseInt '12abc'`. -/
theorem malformed_values_loaded_witness :
    ∃ t, initGame sampleRng sampleSeed "Wed Nov 04 2026" (initialSession malformedStorage) =
        some t ∧
      t.streak = parseInt "abc" ∧ t.bestTime = some (parseInt "12abc") := by
  obtain ⟨⟨t, ht, h1, _, h3, _⟩, _⟩ := malformed_values_loaded sampleRng sampleRng_range
    sampleSeed "Wed Nov 04 2026" "Tue Nov 03 2026" malformedStorage
  exact ⟨t, ht, h1 "abc" rfl (by decide), h3 "12abc" rfl (by decide)⟩

/-! ## Determinism -/

theorem initGame_game (rng : Int → ℚ) (seed : JSString) (today : String) (s u : Session)
    (h : initGame rng seed today s = some u) :
    ∃ g, generateMemoryGame rng seed = some g ∧ u.gameState = some g ∧
      u.difficulty = g.difficulty := by
  cases hg : generateMemoryGame rng seed with
  | none =>
    unfold initGame at h
    simp [hg] at h
  | some g =>
    obtain ⟨t, ht, h1, h2, _⟩ := initGame_some rng seed today s g hg
    rw [h] at ht
    have hut : u = t := Option.some.inj ht
    subst hut
    exact ⟨g, rfl, h1, h2⟩

theorem generateMemoryGameReads_same (rng : Int → ℚ) (seed : JSString) :
    generateMemoryGameReads rng seed seed = generateMemoryGame rng seed := rfl

theorem generateMemoryGameReads_returns (rng : Int → ℚ) (hrng : ∀ n, 0 ≤ rng n ∧ rng n < 1)
    (seed seedAgain : JSString) : ∃ g, generateMemoryGameReads rng seed seedAgain = some g := by
  obtain ⟨out, hout, _, _⟩ := shuffleArray_returns_perm rng hrng
    (makePairs 0 (generateCardContent rng seed (getDailyDifficulty seedAgain))) seed
  refine ⟨{ cards := out, difficulty := getDailyDifficulty seedAgain, seed := seed,
            gridSize := getGridSize (getDailyDifficulty seedAgain) }, ?_⟩
  unfold generateMemoryGameReads
  simp only [hout]

theorem generateMemoryGameReads_some (rng : Int → ℚ) (seed seedAgain : JSString)
    (g : GameState) (h : generateMemoryGameReads rng seed seedAgain = some g) :
    shuffleArray rng (makePairs 0 (generateCardContent rng seed (getDailyDifficulty seedAgain)))
        seed = some g.cards ∧
      g.difficulty = getDailyDifficulty seedAgain ∧ g.seed = seed ∧
      g.gridSize = getGridSize (getDailyDifficulty seedAgain) := by
  unfold generateMemoryGameReads at h
  simp only [] at h
  cases hs : shuffleArray rng
      (makePairs 0 (generateCardContent rng seed (getDailyDifficulty seedAgain))) seed with
  | none => simp [hs] at h
  | some out =>
    simp only [hs, Option.some.injEq] at h
    subst h
    exact ⟨rfl, rfl, rfl, rfl⟩

theorem generateMemoryGameReads_length (rng : Int → ℚ) (seed seedAgain : JSString)
    (g : GameState) (h : generateMemoryGameReads rng seed seedAgain = some g) :
    g.cards.length = 2 * pairCountOf (getDailyDifficulty seedAgain) := by
  obtain ⟨hs, _, _, _⟩ := generateMemoryGameReads_some rng seed seedAgain g h
  have hperm := shuffleLoop_some_perm rng (hashOf seed) _ _ g.cards hs
  rw [hperm.length_eq, makePairs_length, generateCardContent_length]

set_option maxRecDepth 100000 in
theorem sample_difficulties :
    getDailyDifficulty sampleSeed = some Difficulty.medium ∧
      getDailyDifficulty nextDaySeed = some Difficulty.hard := by
  decide

/-- C16 (as the code behaves): a call of `generateMemoryGame` reads the clock twice, and
its result is a function of the two seeds read.  The seed read at line 114 is returned as
`seed` and is the one content selection and shuffling hash; difficulty and grid size are
selected from the hash of the seed that `getDailyDifficulty` reads again.  When both
readings give the same seed, the three steps hash that one seed, the result is the one
`generateMemoryGame` of that seed, and `initGame` and `handleReset` set that same game. -/
theorem generation_by_reads (rng : Int → ℚ) (seed seedAgain : JSString) (g : GameState)
    (hg : generateMemoryGameReads rng seed seedAgain = some g) :
    g.seed = seed ∧
      g.difficulty = difficultyAt (hashOf seedAgain) ∧
      g.gridSize = getGridSize (difficultyAt (hashOf seedAgain)) ∧
      shuffleLoop rng (hashOf seed) (2 * pairCountOf g.difficulty - 1)
          (makePairs 0 ((List.range (pairCountOf g.difficulty)).map
            fun i => arrayGet availableContent (contentIndex rng (hashOf seed) i))) =
        some g.cards ∧
      (∀ g2 : GameState, generateMemoryGameReads rng seed seedAgain = some g2 → g2 = g) ∧
      (seedAgain = seed →
        generateMemoryGame rng seed = some g ∧
          ∀ (today : String) (s t u v : Session),
            initGame rng seed today s = some u → handleReset rng seed t = some v →
              u.gameState = some g ∧ v.gameState = some g ∧
                u.difficulty = g.difficulty ∧ v.difficulty = g.difficulty) := by
  obtain ⟨hs, hd, hseed, hgrid⟩ := generateMemoryGameReads_some rng seed seedAgain g hg
  have hd2 : g.difficulty = difficultyAt (hashOf seedAgain) := hd
  refine ⟨hseed, hd2, ?_, ?_, ?_, ?_⟩
  · rw [hgrid]
    rfl
  · rw [← hs, hd]
    unfold shuffleArray generateCardContent
    simp only [makePairs_length, List.length_map, List.length_range]
  · intro g2 hg2
    rw [hg] at hg2
    exact (Option.some.inj hg2).symm
  · intro hsame
    subst hsame
    have hgen : generateMemoryGame rng seedAgain = some g := hg
    refine ⟨hgen, ?_⟩
    intro today s t u v hu hv
    obtain ⟨g1, hg1, h1, h2⟩ := initGame_game rng seedAgain today s u hu
    obtain ⟨g2, hg2, hv2⟩ := handleReset_some rng seedAgain t v hv
    rw [hgen] at hg1 hg2
    have e1 : g = g1 := Option.some.inj hg1
    have e2 : g = g2 := Option.some.inj hg2
    subst e1
    subst e2
    subst hv2
    exact ⟨h1, rfl, h2, rfl⟩

/-- C16 (as stated) fails when midnight falls between the two readings of the clock: two
calls that both read the seed of 4 November 2026 at line 114 return that same seed, but the
call whose `getDailyDifficulty` already reads the seed of 5 November returns difficulty
hard and 24 cards, the other difficulty medium and 16 cards. -/
theorem generation_not_by_seed_alone :
    ∃ g1 g2, generateMemoryGameReads sampleRng sampleSeed sampleSeed = some g1 ∧
      generateMemoryGameReads sampleRng sampleSeed nextDaySeed = some g2 ∧
      g1.seed = g2.seed ∧
      g1.difficulty = some Difficulty.medium ∧ g2.difficulty = some Difficulty.hard ∧
      g1.cards.length = 16 ∧ g2.cards.length = 24 ∧
      g2.difficulty ≠ getDailyDifficulty g2.seed := by
  obtain ⟨g1, h1⟩ := generateMemoryGameReads_returns sampleRng sampleRng_range sampleSeed sampleSeed
  obtain ⟨g2, h2⟩ := generateMemoryGameReads_returns sampleRng sampleRng_range sampleSeed nextDaySeed
  obtain ⟨_, d1, s1, _⟩ := generateMemoryGameReads_some _ _ _ g1 h1
  obtain ⟨_, d2, s2, _⟩ := generateMemoryGameReads_some _ _ _ g2 h2
  have l1 := generateMemoryGameReads_length _ _ _ g1 h1
  have l2 := generateMemoryGameReads_length _ _ _ g2 h2
  obtain ⟨hm, hh⟩ := sample_difficulties
  rw [hm] at d1 l1
  rw [hh] at d2 l2
  refine ⟨g1, g2, h1, h2, by rw [s1, s2], d1, d2, l1, l2, ?_⟩
  rw [d2, s2, hm]
  decide

/-- Witness of `generation_by_reads`: in the call that reads the seed of 4 November and
then, inside `getDailyDifficulty`, the seed of 5 November, the returned seed is the
first and the difficulty is the one of the second. -/
theorem generation_by_reads_witness :
    ∃ g, generateMemoryGameReads sampleRng sampleSeed nextDaySeed = some g ∧
      g.seed = sampleSeed ∧ g.difficulty = difficultyAt (hashOf nextDaySeed) := by
  obtain ⟨g, hg⟩ := generateMemoryGameReads_returns sampleRng sampleRng_range sampleSeed nextDaySeed
  have h := generation_by_reads sampleRng sampleSeed nextDaySeed g hg
  exact ⟨g, hg, h.1, h.2.1⟩

/-! ## Hash: polynomial form and size -/

theorem hashOf_concat (seed : JSString) (c : Nat) :
    hashOf (seed ++ [c]) = hashStep (hashOf seed) c := by
  simp [hashOf, List.foldl_append]

theorem polySum_concat (seed : JSString) (c : Nat) :
    polySum (seed ++ [c]) = polySum seed * 31 + (c : Int) := by
  unfold polySum
  have hlen : (seed ++ [c]).length = seed.length + 1 := by simp
  rw [hlen, List.range_succ, List.map_append, List.sum_append]
  have hlast : (List.map (fun i => ((seed ++ [c]).getD i 0 : Int) * 31 ^ (seed.length + 1 - 1 - i))
      [seed.length]).sum = (c : Int) := by
    simp [List.getD_append_right]
  have hinit : List.map (fun i => ((seed ++ [c]).getD i 0 : Int) * 31 ^ (seed.length + 1 - 1 - i))
      (List.range seed.length) =
      List.map (fun i => ((seed.getD i 0 : Int) * 31 ^ (seed.length - 1 - i)) * 31)
        (List.range seed.length) := by
    apply List.map_congr_left
    intro i hi
    have hi2 : i < seed.length := List.mem_range.mp hi
    have hexp : seed.length + 1 - 1 - i = (seed.length - 1 - i) + 1 := by omega
    rw [List.getD_append _ _ _ _ hi2, hexp, pow_succ, mul_assoc]
  rw [hlast, hinit, List.sum_map_mul_right]

theorem hashStep_modEq (h p : Int) (c : Nat) (hp : h % 4294967296 = p % 4294967296) :
    hashStep h c % 4294967296 = (p * 31 + (c : Int)) % 4294967296 := by
  unfold hashStep shiftLeft5 toInt32
  simp only []
  split <;> split <;> omega

theorem hashStep_abs_le (h : Int) (c : Nat) (hc : c ≤ 65535) :
    |hashStep h c| ≤ |h| + 2147549183 := by
  have hr := toInt32_isInt32 (toInt32 h * 32)
  unfold isInt32 at hr
  unfold hashStep shiftLeft5
  rw [abs_le]
  have h1 := neg_abs_le h
  have h2 := le_abs_self h
  constructor <;> omega

/-- C18: for every seed of length `n` with code units `c_0 .. c_(n-1)` (each at most
65535), the hash of the loop is congruent modulo `2 ^ 32` to the unbounded sum
`Σ c_i · 31 ^ (n - 1 - i)` and its magnitude is at most `n · (2 ^ 31 + 65535)`; one round
adds the code unit to the 32-bit shift minus the untruncated previous hash. -/
theorem hashOf_polySum (seed : JSString) (hunits : ∀ c ∈ seed, c ≤ 65535) :
    hashOf seed ≡ polySum seed [ZMOD 4294967296] ∧
      |hashOf seed| ≤ (seed.length : Int) * (2 ^ 31 + 65535) ∧
      ∀ (h : Int) (c : Nat),
        hashStep h c = (c : Int) + (toInt32 (toInt32 h * 2 ^ 5) - h) ∧
          hashOf (seed ++ [c]) = hashStep (hashOf seed) c := by
  refine ⟨?_, ?_, fun h c => ⟨rfl, hashOf_concat seed c⟩⟩
  · unfold Int.ModEq
    clear hunits
    induction seed using List.reverseRecOn with
    | nil => rfl
    | append_singleton rest c ih =>
      rw [hashOf_concat, polySum_concat]
      exact hashStep_modEq _ _ c ih
  · induction seed using List.reverseRecOn with
    | nil => simp [hashOf]
    | append_singleton rest c ih =>
      have hrest : ∀ x ∈ rest, x ≤ 65535 := fun x hx =>
        hunits x (List.mem_append_left _ hx)
      have hc : c ≤ 65535 := hunits c (by simp)
      have h1 := ih hrest
      have h2 := hashStep_abs_le (hashOf rest) c hc
      rw [hashOf_concat]
      have hlen : ((rest ++ [c]).length : Int) = (rest.length : Int) + 1 := by simp
      rw [hlen]
      have hk : (2 : Int) ^ 31 + 65535 = 2147549183 := by norm_num
      rw [hk] at h1 ⊢
      linarith

/-- Witness of `hashOf_polySum`: the seed `abcdefg` hashes to a value congruent to its
polynomial sum and of magnitude at most `7 · (2 ^ 31 + 65535)`. -/
theorem hashOf_polySum_witness :
    hashOf [97, 98, 99, 100, 101, 102, 103] ≡ polySum [97, 98, 99, 100, 101, 102, 103]
        [ZMOD 4294967296] ∧
      |hashOf [97, 98, 99, 100, 101, 102, 103]| ≤
        (([97, 98, 99, 100, 101, 102, 103] : JSString).length : Int) * (2 ^ 31 + 65535) :=
  ⟨(hashOf_polySum [97, 98, 99, 100, 101, 102, 103] (by decide)).1,
    (hashOf_polySum [97, 98, 99, 100, 101, 102, 103] (by decide)).2.1⟩

/-! ## Reachable sessions -/

theorem wellFormed_of_fields (g : GameState) (s t : Session) (h : wellFormed g s)
    (h1 : t.gameState = s.gameState) (h2 : t.flippedCards = s.flippedCards)
    (h3 : t.matchedPairs = s.matchedPairs) (h4 : t.pending = s.pending) : wellFormed g t := by
  unfold wellFormed at h ⊢
  rw [h1, h2, h3, h4]
  exact h

theorem wellFormed_tick (g : GameState) (s : Session) (h : wellFormed g s) :
    wellFormed g (tick s) := by
  unfold tick
  split
  · exact wellFormed_of_fields g s _ h rfl rfl rfl rfl
  · exact h

theorem wellFormed_completionEffect (today yesterday : String) (g : GameState) (s : Session)
    (h : wellFormed g s) : wellFormed g (completionEffect today yesterday s) := by
  unfold completionEffect
  split
  · simp only []
    split
    · exact wellFormed_of_fields g s _ h rfl rfl rfl rfl
    · exact wellFormed_of_fields g s _ h rfl rfl rfl rfl
  · exact h

theorem wellFormed_fireTimeout (g : GameState) (s : Session) (k : Nat)
    (h : wellFormed g s) : wellFormed g (fireTimeout s k) := by
  obtain ⟨hg, hfn, hfl, hmn, hmv, hp⟩ := h
  unfold fireTimeout
  rcases hp with ⟨hp0, _⟩ | ⟨t, hpt, _, hfresh⟩
  · rw [hp0]
    simp only [List.getElem?_nil]
    exact ⟨hg, hfn, hfl, hmn, hmv, Or.inl ⟨hp0, by assumption⟩⟩
  · rw [hpt]
    cases k with
    | succ m =>
      simp only [List.getElem?_cons_succ, List.getElem?_nil]
      exact ⟨hg, hfn, hfl, hmn, hmv, Or.inr ⟨t, hpt, by assumption, hfresh⟩⟩
    | zero =>
      simp only [List.getElem?_cons_zero, List.eraseIdx_cons_zero]
      cases t with
      | noMatch =>
        exact ⟨hg, List.nodup_nil, Nat.zero_le _, hmn, hmv, Or.inl ⟨rfl, Nat.zero_le _⟩⟩
      | matchFound p =>
        obtain ⟨hnot, hboard⟩ := hfresh p rfl
        refine ⟨hg, List.nodup_nil, Nat.zero_le _, ?_, ?_, Or.inl ⟨rfl, Nat.zero_le _⟩⟩
        · show (s.matchedPairs ++ [p]).Nodup
          rw [List.nodup_append]
          refine ⟨hmn, List.nodup_singleton p, ?_⟩
          intro a ha hb
          rw [List.mem_singleton] at hb
          subst hb
          exact hnot ha
        · intro q hq
          have hq2 : q ∈ s.matchedPairs ++ [p] := hq
          rw [List.mem_append, List.mem_singleton] at hq2
          rcases hq2 with hq2 | hq2
          · exact hmv q hq2
          · rw [hq2]
            exact hboard

theorem wellFormed_handleCardFlip (g : GameState) (s t : Session) (cardIndex : Nat)
    (h : wellFormed g s) (ht : handleCardFlip s cardIndex = some t) : wellFormed g t := by
  obtain ⟨gs, fl, mp, mv, ic, st, lp, tm, run, bt, df, pd, ls⟩ := s
  obtain ⟨hg, hfn, hfl, hmn, hmv, hp⟩ := h
  simp only at hg hfn hfl hmn hmv hp
  subst hg
  by_cases hrej1 : fl.length ≥ 2 ∨ cardIndex ∈ fl
  · unfold handleCardFlip at ht
    simp only [hrej1, if_true, Option.some.injEq] at ht
    subst ht
    exact ⟨rfl, hfn, hfl, hmn, hmv, hp⟩
  · have hlen : ¬ fl.length ≥ 2 := fun hx => hrej1 (Or.inl hx)
    have hmem : cardIndex ∉ fl := fun hx => hrej1 (Or.inr hx)
    have hpd : pd = [] := by
      rcases hp with ⟨hp0, _⟩ | ⟨_, _, hp2, _⟩
      · exact hp0
      · omega
    subst hpd
    unfold handleCardFlip at ht
    simp only [hrej1, if_false] at ht
    cases hc : g.cards[cardIndex]? with
    | none => simp [hc] at ht
    | some card =>
      simp only [hc] at ht
      by_cases hrej2 : card.pairId ∈ mp ∨ ic = true
      · simp only [hrej2, if_true, Option.some.injEq] at ht
        subst ht
        exact ⟨rfl, hfn, hfl, hmn, hmv, hp⟩
      · simp only [hrej2, if_false] at ht
        have hnm : card.pairId ∉ mp := fun hx => hrej2 (Or.inl hx)
        match fl, hfn, hfl, hlen, hmem, ht with
        | [], _, _, _, _, ht =>
          simp only [List.nil_append, Option.some.injEq] at ht
          subst ht
          cases run <;>
            exact ⟨rfl, List.nodup_singleton _, by simp, hmn, hmv, Or.inl ⟨rfl, by simp⟩⟩
        | [a], _, _, _, hmem, ht =>
          have hne : a ≠ cardIndex := by
            intro hx
            apply hmem
            simp [hx]
          simp only [List.singleton_append, hc] at ht
          cases ha : g.cards[a]? with
          | none => simp [ha] at ht
          | some ca =>
            simp only [ha] at ht
            have hnd : [a, cardIndex].Nodup := by simp [hne]
            have hca : ca ∈ g.cards := List.getElem?_mem ha
            by_cases hpair : ca.pairId = card.pairId
            · simp only [hpair, if_true, Option.some.injEq] at ht
              subst ht
              cases run <;>
                exact ⟨rfl, hnd, by simp, hmn, hmv, Or.inr ⟨_, rfl, rfl, fun p hp2 => by
                  have hpe : card.pairId = p := Timeout.matchFound.inj hp2
                  subst hpe
                  exact ⟨hnm, ca, hca, hpair⟩⟩⟩
            · simp only [hpair, if_false, Option.some.injEq] at ht
              subst ht
              cases run <;>
                exact ⟨rfl, hnd, by simp, hmn, hmv, Or.inr ⟨_, rfl, rfl, fun p hp2 => by
                  cases hp2⟩⟩
        | _ :: _ :: _, _, _, hlen, _, _ =>
          simp at hlen

theorem wellFormed_of_isFresh (g : GameState) (s : Session) (h : isFresh s g) :
    wellFormed g s := by
  obtain ⟨h1, h2, h3, h4⟩ := h
  refine ⟨h1, ?_, ?_, ?_, ?_, Or.inl ⟨h4, ?_⟩⟩
  · rw [h2]
    exact List.nodup_nil
  · rw [h2]
    exact Nat.zero_le _
  · rw [h3]
    exact List.nodup_nil
  · intro p hp
    rw [h3] at hp
    cases hp
  · rw [h2]
    exact Nat.zero_le _

theorem wellFormed_step (today yesterday : String) (g : GameState) (s t : Session)
    (h : wellFormed g s) (hst : Step today yesterday s t) : wellFormed g t := by
  cases hst
  case flip cardIndex hflip => exact wellFormed_handleCardFlip g s t cardIndex h hflip
  case fire k => exact wellFormed_fireTimeout g s k h
  case clock => exact wellFormed_tick g s h
  case effect => exact wellFormed_completionEffect today yesterday g s h

theorem wellFormed_reachable (today yesterday : String) (g : GameState) (start s : Session)
    (hfresh : isFresh start g) (hreach : Reachable today yesterday start s) :
    wellFormed g s := by
  induction hreach with
  | refl => exact wellFormed_of_isFresh g start hfresh
  | step u v _ huv ih => exact wellFormed_step today yesterday g u v ih huv

theorem generateMemoryGame_pairIds (rng : Int → ℚ) (seed : JSString) (g : GameState)
    (hg : generateMemoryGame rng seed = some g) :
    (∀ c ∈ g.cards, c.pairId < pairCountOf g.difficulty) ∧
      ∀ p, p < pairCountOf g.difficulty → ∃ c ∈ g.cards, c.pairId = p := by
  obtain ⟨hperm, hd, _, _⟩ := generateMemoryGame_some rng seed g hg
  have hclen := generateCardContent_length rng seed (getDailyDifficulty seed)
  rw [hd]
  constructor
  · intro c hc
    have hm := makePairs_mem 0 _ c (hperm.subset hc)
    omega
  · intro p hp
    have hcount := makePairs_countP p 0 (generateCardContent rng seed (getDailyDifficulty seed))
    rw [if_pos (by omega)] at hcount
    have hpos : 0 < (makePairs 0 (generateCardContent rng seed (getDailyDifficulty seed))).countP
        (fun c => decide (c.pairId = p)) := by omega
    obtain ⟨c, hc, hcp⟩ := List.countP_pos_iff.mp hpos
    exact ⟨c, hperm.symm.subset hc, of_decide_eq_true hcp⟩

theorem nodup_length_eq_iff (n : Nat) (l : List Nat) (hn : l.Nodup) (hlt : ∀ p ∈ l, p < n) :
    l.length = n ↔ ∀ p, p < n → p ∈ l := by
  have hsub : l.toFinset ⊆ Finset.range n := by
    intro p hp
    rw [List.mem_toFinset] at hp
    exact Finset.mem_range.mpr (hlt p hp)
  have hcard : l.toFinset.card = l.length := List.toFinset_card_of_nodup hn
  constructor
  · intro hlen p hp
    have heq : l.toFinset = Finset.range n :=
      Finset.eq_of_subset_of_card_le hsub (by rw [Finset.card_range, hcard, hlen])
    have : p ∈ l.toFinset := by
      rw [heq]
      exact Finset.mem_range.mpr hp
    exact List.mem_toFinset.mp this
  · intro hall
    have hsup : Finset.range n ⊆ l.toFinset := by
      intro p hp
      exact List.mem_toFinset.mpr (hall p (Finset.mem_range.mp hp))
    have heq : l.toFinset = Finset.range n := Finset.Subset.antisymm hsub hsup
    rw [← hcard, heq, Finset.card_range]

/-- C17: in every state reachable from a fresh session on a generated board by flips that
return, timeout firings, clock ticks and runs of the completion effect, `flippedCards`
holds at most 2 indices, all distinct, and `matchedPairs` has no duplicate and only
`pairId`s below `pairCount`; so `matchedPairs.length = pairCount` holds exactly when every
tile of the board has its `pairId` in `matchedPairs`. -/
theorem reachable_wellFormed (rng : Int → ℚ) (seed : JSString) (today yesterday : String)
    (g : GameState) (hg : generateMemoryGame rng seed = some g) (start s : Session)
    (hfresh : isFresh start g) (hreach : Reachable today yesterday start s) :
    s.gameState = some g ∧ s.flippedCards.length ≤ 2 ∧ s.flippedCards.Nodup ∧
      s.matchedPairs.Nodup ∧ (∀ p ∈ s.matchedPairs, p < pairCountOf g.difficulty) ∧
      (s.matchedPairs.length = pairCountOf g.difficulty ↔
        ∀ c ∈ g.cards, c.pairId ∈ s.matchedPairs) := by
  obtain ⟨h1, h2, h3, h4, h5, _⟩ := wellFormed_reachable today yesterday g start s hfresh hreach
  obtain ⟨hb1, hb2⟩ := generateMemoryGame_pairIds rng seed g hg
  have hlt : ∀ p ∈ s.matchedPairs, p < pairCountOf g.difficulty := by
    intro p hp
    obtain ⟨c, hc, hcp⟩ := h5 p hp
    rw [← hcp]
    exact hb1 c hc
  refine ⟨h1, h3, h2, h4, hlt, ?_⟩
  rw [nodup_length_eq_iff _ _ h4 hlt]
  constructor
  · intro hall c hc
    exact hall c.pairId (hb1 c hc)
  · intro hall p hp
    obtain ⟨c, hc, hcp⟩ := hb2 p hp
    rw [← hcp]
    exact hall c hc

theorem exists_index_of_countP_pos {α : Type} (p : α → Bool) (l : List α)
    (h : 0 < l.countP p) : ∃ (i : Nat) (x : α), l[i]? = some x ∧ p x = true := by
  obtain ⟨x, hx, hpx⟩ := List.countP_pos_iff.mp h
  obtain ⟨i, hi⟩ := List.mem_iff_getElem?.mp hx
  exact ⟨i, x, hi, hpx⟩

theorem exists_two_of_countP {α : Type} (p : α → Bool) (l : List α) (h : 2 ≤ l.countP p) :
    ∃ (i j : Nat) (x y : α), i < j ∧ l[i]? = some x ∧ l[j]? = some y ∧ p x = true ∧
      p y = true := by
  induction l with
  | nil => simp at h
  | cons head tail ih =>
    by_cases hp : p head = true
    · have hcount : 0 < tail.countP p := by
        rw [List.countP_cons_of_pos _ _ hp] at h
        omega
      obtain ⟨j, y, hj, hy⟩ := exists_index_of_countP_pos p tail hcount
      exact ⟨0, j + 1, head, y, Nat.succ_pos j, List.getElem?_cons_zero,
        (List.getElem?_cons_succ).trans hj, hp, hy⟩
    · rw [List.countP_cons_of_neg _ _ hp] at h
      obtain ⟨i, j, x, y, hij, hi, hj, hx, hy⟩ := ih h
      exact ⟨i + 1, j + 1, x, y, Nat.succ_lt_succ hij, (List.getElem?_cons_succ).trans hi,
        (List.getElem?_cons_succ).trans hj, hx, hy⟩

theorem generateMemoryGame_pair_zero (rng : Int → ℚ) (seed : JSString) (g : GameState)
    (hg : generateMemoryGame rng seed = some g) :
    ∃ (a b : Nat) (ca cb : Card), a < b ∧ g.cards[a]? = some ca ∧ g.cards[b]? = some cb ∧
      ca.pairId = 0 ∧ cb.pairId = 0 := by
  obtain ⟨hperm, _, _, _⟩ := generateMemoryGame_some rng seed g hg
  have hclen := generateCardContent_length rng seed (getDailyDifficulty seed)
  have hpos : 0 < pairCountOf (getDailyDifficulty seed) := by
    unfold pairCountOf
    split <;> decide
  have hcount : g.cards.countP (fun c : Card => decide (c.pairId = 0)) = 2 := by
    rw [hperm.countP_eq, makePairs_countP, hclen, if_pos (by omega)]
  obtain ⟨a, b, ca, cb, hab, ha, hb, hca, hcb⟩ :=
    exists_two_of_countP (fun c : Card => decide (c.pairId = 0)) g.cards (by omega)
  exact ⟨a, b, ca, cb, hab, ha, hb, of_decide_eq_true hca, of_decide_eq_true hcb⟩

theorem flips_then_fire (s : Session) (g : GameState) (a b : Nat) (ca cb : Card)
    (hg : s.gameState = some g) (hcomplete : s.isComplete = false) (hflipped : s.flippedCards = [])
    (ha : g.cards[a]? = some ca) (hb : g.cards[b]? = some cb) (hab : a ≠ b)
    (hma : ca.pairId ∉ s.matchedPairs) (hmb : cb.pairId ∉ s.matchedPairs)
    (hpair : ca.pairId = cb.pairId) :
    ∃ s1 s2 : Session,
      handleCardFlip s a = some s1 ∧ handleCardFlip s1 b = some s2 ∧
      s2.flippedCards = [a, b] ∧
      (fireTimeout s2 s.pending.length).matchedPairs = s.matchedPairs ++ [ca.pairId] ∧
      (fireTimeout s2 s.pending.length).flippedCards = [] := by
  have h1 := handleCardFlip_first s g a ca hg hcomplete hflipped ha hma
  have h2 := handleCardFlip_second { s with isTimerRunning := true, flippedCards := [a] } g a b ca cb
    hg hcomplete rfl ha hb hab hmb
  refine ⟨_, _, h1, h2, rfl, ?_⟩
  rw [fireTimeout_last _ _ s.pending rfl]
  simp [hpair, Timeout.run]

/-- Witness of `reachable_wellFormed`: on the board of the sample seed, loaded by
`initGame`, the two tiles of pair 0 are flipped (two indices face-up, distinct) and their
match timeout fires; the session reached has `matchedPairs = [0]`, without duplicate and
below `pairCount`. -/
theorem reachable_wellFormed_witness :
    ∃ (g : GameState) (u s1 s2 : Session) (a b : Nat),
      generateMemoryGame sampleRng sampleSeed = some g ∧
      initGame sampleRng sampleSeed "Wed Nov 04 2026" (initialSession emptyStorage) = some u ∧
      a ≠ b ∧ handleCardFlip u a = some s1 ∧ handleCardFlip s1 b = some s2 ∧
      s2.flippedCards = [a, b] ∧ s2.flippedCards.length ≤ 2 ∧ s2.flippedCards.Nodup ∧
      (fireTimeout s2 0).matchedPairs = [0] ∧ (fireTimeout s2 0).flippedCards = [] ∧
      (fireTimeout s2 0).matchedPairs.Nodup ∧
      (∀ p ∈ (fireTimeout s2 0).matchedPairs, p < pairCountOf g.difficulty) ∧
      ((fireTimeout s2 0).matchedPairs.length = pairCountOf g.difficulty ↔
        ∀ c ∈ g.cards, c.pairId ∈ (fireTimeout s2 0).matchedPairs) := by
  obtain ⟨g, hg⟩ := generateMemoryGame_returns sampleRng sampleRng_range sampleSeed
  obtain ⟨u, hu, h1, _, _, _, hcomplete, h6, h7, h8, _⟩ :=
    initGame_some sampleRng sampleSeed "Wed Nov 04 2026" (initialSession emptyStorage) g hg
  have hcomplete2 : u.isComplete = false := by
    rw [hcomplete]
    rfl
  have h6b : u.flippedCards = [] := h6
  have h7b : u.matchedPairs = [] := h7
  have h8b : u.pending = [] := h8
  obtain ⟨a, b, ca, cb, hab, ha, hb, hca, hcb⟩ :=
    generateMemoryGame_pair_zero sampleRng sampleSeed g hg
  have hne : a ≠ b := Nat.ne_of_lt hab
  have hma : ca.pairId ∉ u.matchedPairs := by
    rw [h7b]
    exact List.not_mem_nil _
  have hmb : cb.pairId ∉ u.matchedPairs := by
    rw [h7b]
    exact List.not_mem_nil _
  obtain ⟨s1, s2, hf1, hf2, hfl, hmatched, hflipped⟩ :=
    flips_then_fire u g a b ca cb h1 hcomplete2 h6b ha hb hne hma hmb (by rw [hca, hcb])
  rw [h8b, h7b, hca] at hmatched
  rw [h8b] at hflipped
  have hfresh : isFresh u g := ⟨h1, h6b, h7b, h8b⟩
  have hr2 : Reachable "Wed Nov 04 2026" "Tue Nov 03 2026" u s2 :=
    Reachable.step s1 s2 (Reachable.step u s1 Reachable.refl (Step.flip u s1 a hf1))
      (Step.flip s1 s2 b hf2)
  have hr3 : Reachable "Wed Nov 04 2026" "Tue Nov 03 2026" u (fireTimeout s2 0) :=
    Reachable.step s2 _ hr2 (Step.fire s2 0)
  have w2 := reachable_wellFormed sampleRng sampleSeed "Wed Nov 04 2026" "Tue Nov 03 2026" g hg
    u s2 hfresh hr2
  have w3 := reachable_wellFormed sampleRng sampleSeed "Wed Nov 04 2026" "Tue Nov 03 2026" g hg
    u (fireTimeout s2 0) hfresh hr3
  exact ⟨g, u, s1, s2, a, b, hg, hu, hne, hf1, hf2, hfl, w2.2.1, w2.2.2.1, hmatched,
    hflipped, w3.2.2.2.1, w3.2.2.2.2.1, w3.2.2.2.2.2⟩

end MemoryMatchingGame
